import Mathlib

set_option autoImplicit false

/-!
Verification of `update_leaderboard.py`, a batch script that fetches a model
leaderboard, enriches it with per-token pricing from two catalog sources, and
writes a CSV plus a Markdown preview.  The Python code is shallowly embedded:
pure helpers become Lean functions on `List Char` / `Option ℚ`, the pandas
table operations become explicit list transformations, and the fallible
network calls become `Except` values threaded through the script skeleton.
-/

namespace UpdateLeaderboard

/-! ## Character-level helpers

`clean` (lines 273-279 of the source) applies two `re.sub` passes, keeps the
part after the last `/`, and lowercases/strips the result.  The regex engine
is modelled by explicit scanning functions below; the whitespace class `\s`
and `str.strip`/`str.lower` are modelled on their ASCII parts (the data never
contains non-ASCII whitespace or cased non-ASCII letters). -/

/-- ASCII whitespace, as matched by Python's `\s` and stripped by `str.strip`. -/
def isPySpace (c : Char) : Bool :=
  c = ' ' || c = '\t' || c = '\n' || c = '\r' || c = '\x0b' || c = '\x0c'

/-- ASCII lowercasing of one character, as done by `str.lower` on ASCII input.
The 26 uppercase letters are mapped explicitly; everything else is fixed. -/
def pyLowerChar : Char → Char
  | 'A' => 'a' | 'B' => 'b' | 'C' => 'c' | 'D' => 'd' | 'E' => 'e' | 'F' => 'f'
  | 'G' => 'g' | 'H' => 'h' | 'I' => 'i' | 'J' => 'j' | 'K' => 'k' | 'L' => 'l'
  | 'M' => 'm' | 'N' => 'n' | 'O' => 'o' | 'P' => 'p' | 'Q' => 'q' | 'R' => 'r'
  | 'S' => 's' | 'T' => 't' | 'U' => 'u' | 'V' => 'v' | 'W' => 'w' | 'X' => 'x'
  | 'Y' => 'y' | 'Z' => 'z' | c => c

/-- Scanner for `re.sub(r"<.*?>", "", s)` (line 276).  The state `some buf`
means the scan saw an unclosed `<` followed by the characters of `buf`
(stored reversed); `.` does not match a newline, so a newline (or the end of
input) makes every pending attempt fail, and the buffered characters are
emitted unchanged — re-attempting a match inside `buf` cannot succeed because
`buf` contains no `>` and the blocking newline is still ahead. -/
def stripTagsGo : Option (List Char) → List Char → List Char
  | none, [] => []
  | none, c :: r =>
      if c = '<' then stripTagsGo (some []) r else c :: stripTagsGo none r
  | some buf, [] => '<' :: buf.reverse
  | some buf, c :: r =>
      if c = '>' then stripTagsGo none r
      else if c = '\n' then ('<' :: buf.reverse) ++ '\n' :: stripTagsGo none r
      else stripTagsGo (some (c :: buf)) r

/-- Result of `re.sub(r"<.*?>", "", s)`: every leftmost non-greedy
`<`…`>` span (not crossing a newline) is deleted. -/
def stripTags (l : List Char) : List Char := stripTagsGo none l

/-- Scanner state for `re.sub(r"\s*\(.*?\)\s*", "", s)` (line 277). -/
inductive PState where
  | outside : PState
  /-- a pending run of whitespace that may become the `\s*` lead of a match -/
  | spaces (ws : List Char) : PState
  /-- pending lead `ws`, an open `(`, and the scanned body `buf` (reversed) -/
  | inner (ws : List Char) (buf : List Char) : PState
  /-- just closed a match; its trailing `\s*` greedily eats whitespace -/
  | after : PState

/-- Scanner for `re.sub(r"\s*\(.*?\)\s*", "", s)`.  A match is a maximal
whitespace run, a `(`, a lazy body not crossing a newline, the first `)`, and
a maximal trailing whitespace run.  On a newline inside the body every pending
attempt fails (the body holds no `)` and the newline still blocks the rest),
so the pending characters are emitted and the newline starts a fresh
whitespace lead. -/
def stripParensGo : PState → List Char → List Char
  | .outside, [] => []
  | .outside, c :: r =>
      if c = '(' then stripParensGo (.inner [] []) r
      else if isPySpace c then stripParensGo (.spaces [c]) r
      else c :: stripParensGo .outside r
  | .spaces ws, [] => ws
  | .spaces ws, c :: r =>
      if c = '(' then stripParensGo (.inner ws []) r
      else if isPySpace c then stripParensGo (.spaces (ws ++ [c])) r
      else ws ++ c :: stripParensGo .outside r
  | .inner ws buf, [] => ws ++ '(' :: buf.reverse
  | .inner ws buf, c :: r =>
      if c = ')' then stripParensGo .after r
      else if c = '\n' then (ws ++ '(' :: buf.reverse) ++ stripParensGo (.spaces ['\n']) r
      else stripParensGo (.inner ws (c :: buf)) r
  | .after, [] => []
  | .after, c :: r =>
      if isPySpace c then stripParensGo .after r
      else if c = '(' then stripParensGo (.inner [] []) r
      else c :: stripParensGo .outside r

/-- Result of `re.sub(r"\s*\(.*?\)\s*", "", s)`. -/
def stripParens (l : List Char) : List Char := stripParensGo .outside l

/-- Result of `text.split("/")[-1]` (line 278): the suffix after the last `/`
(the whole string when there is no `/`). -/
def lastSlash : List Char → List Char
  | [] => []
  | c :: r => if c = '/' ∨ '/' ∈ r then lastSlash r else c :: r

/-- Result of `text.strip()` on ASCII whitespace. -/
def pyStrip (l : List Char) : List Char :=
  ((l.dropWhile isPySpace).reverse.dropWhile isPySpace).reverse

/-- The `clean` normalisation (lines 273-279) on character lists:
strip `<`…`>` tags, strip `(...)` segments with surrounding whitespace, keep
the part after the last `/`, strip, lowercase. -/
def cleanL (l : List Char) : List Char :=
  (pyStrip (lastSlash (stripParens (stripTags l)))).map pyLowerChar

/-- The `clean` normalisation on strings. -/
def clean (s : String) : String := String.mk (cleanL s.data)

def NoPat (a b : Char) (l : List Char) : Prop := ¬ [a, b].Sublist l

/-- Pending (not yet emitted) characters of a tag-scanner state. -/
def tagRep : Option (List Char) → List Char
  | none => []
  | some buf => '<' :: buf.reverse

/-- Invariant carried by the tag scanner: the pending body holds no `>`. -/
def TagInv : Option (List Char) → Prop
  | none => True
  | some buf => '>' ∉ buf

/-- Pending (not yet emitted) characters of a paren-scanner state. -/
def parenRep : PState → List Char
  | .outside => []
  | .spaces ws => ws
  | .inner ws buf => ws ++ '(' :: buf.reverse
  | .after => []

/-- Invariant carried by the paren scanner: the pending whitespace holds no
parens and the pending body holds no `)`. -/
def ParenInv : PState → Prop
  | .outside => True
  | .spaces ws => '(' ∉ ws ∧ ')' ∉ ws
  | .inner ws buf => '(' ∉ ws ∧ ')' ∉ ws ∧ ')' ∉ buf
  | .after => True

/-! ## Cost conversion and formatting

Lines 540-557 convert each recognized per-token cost column to per-million
units (`pd.to_numeric(...) * 1_000_000`, NaN preserved), and lines 579-599
re-coerce and stringify it with `format_cost`.  Float values are embedded as
the exact rationals they denote. -/

/-- Round a rational to the nearest integer, ties to even — the rounding of
Python's fixed-point float formatting. -/
def roundHalfEven (q : ℚ) : ℤ :=
  let f := ⌊q⌋
  let r := q - f
  if r < 1/2 then f
  else if 1/2 < r then f + 1
  else if f % 2 = 0 then f else f + 1

/-- Two-digit zero-padded decimal numeral. -/
def pad2 (n : ℕ) : String := if n < 10 then "0" ++ toString n else toString n

/-- Python's `f"{x:.2f}"`: optional sign, integer part, dot, exactly two
fractional digits, rounding half to even. -/
def fmt2 (q : ℚ) : String :=
  let n := (roundHalfEven (|q| * 100)).toNat
  let sign := if q < 0 then "-" else ""
  sign ++ toString (n / 100) ++ "." ++ pad2 (n % 100)

/-- The numeric conversion of one cost value (line 544): missing stays
missing, present values are multiplied by 1,000,000. -/
def convertCost (c : Option ℚ) : Option ℚ := c.map (fun v => v * 1000000)

/-- `format_cost` (lines 591-597): a missing (NaN) value becomes the empty
string, anything else is formatted with two decimal places. -/
def format_cost (x : Option ℚ) : String :=
  match x with
  | none => ""
  | some v => fmt2 v

/-- The final CSV cell of a recognized cost field: conversion loop followed by
the formatting loop (the second `pd.to_numeric` re-coercion at line 582 is the
identity on the already-numeric column). -/
def costCell (c : Option ℚ) : String := format_cost (convertCost c)

/-! ## Pricing catalog rows and the best-row selector -/

/-- One pricing-catalog row of `model_df` (lines 263-270 and 374-381): the
(normalised) `model` id plus the cost/provider fields consumed downstream.
Missing or NaN numeric fields are `none`. -/
structure CatRow where
  model : String
  input_cost_per_token : Option ℚ
  output_cost_per_token : Option ℚ
  output_cost_per_reasoning_token : Option ℚ
  input_cost_per_token_batches : Option ℚ
  output_cost_per_token_batches : Option ℚ
  litellm_provider : Option String
deriving DecidableEq

/-- The fixed allow-list of primary providers (line 477). -/
def primary_providers : List String :=
  ["openai", "anthropic", "vertex_ai-language-models", "gemini", "openrouter"]

/-- Mask of lines 468-473: both costs present (`notna`) and strictly positive. -/
def bothCostsPos (r : CatRow) : Bool :=
  match r.input_cost_per_token, r.output_cost_per_token with
  | some i, some o => decide (0 < i) && decide (0 < o)
  | _, _ => false

/-- Mask of lines 484-487: both costs present, zero allowed. -/
def bothCosts (r : CatRow) : Bool :=
  r.input_cost_per_token.isSome && r.output_cost_per_token.isSome

/-- Mask of line 493: input cost present. -/
def hasInputCost (r : CatRow) : Bool := r.input_cost_per_token.isSome

/-- Mask of line 478: `litellm_provider.isin(primary_providers)` — `isin` is
false on a missing provider. -/
def isPrimaryProvider (r : CatRow) : Bool :=
  match r.litellm_provider with
  | some p => primary_providers.contains p
  | none => false

/-- `select_best_pricing_row` (lines 465-498) on a group of catalog rows
sharing one model id, in group order.  Returns `none` only on an empty group;
`groupby` never produces one. -/
def select_best_pricing_row (g : List CatRow) : Option CatRow :=
  if g.filter bothCostsPos ≠ [] then
    if (g.filter bothCostsPos).filter isPrimaryProvider ≠ [] then
      ((g.filter bothCostsPos).filter isPrimaryProvider).head?
    else (g.filter bothCostsPos).head?
  else
    if g.filter bothCosts ≠ [] then (g.filter bothCosts).head?
    else
      if g.filter hasInputCost ≠ [] then (g.filter hasInputCost).head?
      else g.head?

/-- Modelled from the spec claim wording for C3 (NOT from the code): among the
rows with both costs positive, prefer providers in the order they are listed
in `primary_providers`. -/
def select_primary_listed_order (g : List CatRow) : Option CatRow :=
  let nz := g.filter bothCostsPos
  (primary_providers.filterMap
    (fun p => nz.find? (fun r => r.litellm_provider = some p))).head?

/-- Group-order demo row: a non-"openai" allow-listed provider with full
nonzero pricing, first in catalog order. -/
def anthropicRow : CatRow := ⟨"m", some 1, some 2, none, none, none, some "anthropic"⟩

/-- Group-order demo row: provider "openai" with full nonzero pricing. -/
def openaiRow : CatRow := ⟨"m", some 3, some 4, none, none, none, some "openai"⟩

/-- Demo row with a provider outside the allow-list and full nonzero pricing. -/
def otherProviderRow : CatRow := ⟨"m", some 5, some 6, none, none, none, some "someProvider"⟩


/-! ## The HTML leaderboard parser (lines 16-93)

A `<td>` cell is modelled by the three strings `parse_leaderboard_html`
extracts from it with BeautifulSoup; a `<tr>` is a list of cells.  bs4 `Tag`
objects are truthy, so the `if cols[0]`-style guards only distinguish a
present cell from `None`. -/

/-- One `<td>` cell: its stripped text, the stripped texts of its `<code>`
descendants, and its stripped text after removing `<img>`/`<svg>` tags. -/
structure Cell where
  text : String
  codeTexts : List String
  textNoIcons : String
deriving DecidableEq, Inhabited

/-- The value of metric column `i` (lines 63-76): cell `i` if present; the
first `<code>` text when there is one, else the cell text; empty text becomes
`None`. -/
def metricCell (cols : List Cell) (i : ℕ) : Option String :=
  match cols.get? i with
  | none => none
  | some cell =>
      let value := match cell.codeTexts with
        | [] => cell.text
        | v :: _ => v
      if value = "" then none else some value

/-- The organisation field (lines 77-85): cell 8 if present, icon tags
removed, empty text becomes `None`. -/
def orgCell (cols : List Cell) : Option String :=
  match cols.get? 8 with
  | none => none
  | some cell => if cell.textNoIcons = "" then none else some cell.textNoIcons

/-- The license field (lines 86-89): the text of cell 9 if present. -/
def licenseCell (cols : List Cell) : Option String :=
  (cols.get? 9).map Cell.text

/-- The ten fields appended for one `<tr>` (lines 55-90).  Fields 0 and 1
(rank icon and model name) read cells 0 and 1 unconditionally. -/
def rowRecord (cols : List Cell) : List (Option String) :=
  [(cols.get? 0).map Cell.text, (cols.get? 1).map Cell.text,
   metricCell cols 2, metricCell cols 3, metricCell cols 4,
   metricCell cols 5, metricCell cols 6, metricCell cols 7,
   orgCell cols, licenseCell cols]

/-- The tbody loop of `parse_leaderboard_html` (lines 50-92): a row without
`<td>` cells is skipped (`if not cols: continue`); a row with exactly one
cell evaluates `cols[1]` and raises an uncaught `IndexError`; any other row
contributes its ten fields. -/
def parse_leaderboard_html : List (List Cell) → Except String (List (List (Option String)))
  | [] => .ok []
  | cols :: rest =>
      if cols.length = 0 then parse_leaderboard_html rest
      else if cols.length = 1 then .error "IndexError"
      else do
        let l ← parse_leaderboard_html rest
        pure (rowRecord cols :: l)

/-- A demo cell for witnesses. -/
def cellA : Cell := ⟨"x", [], "org"⟩


/-! ## The OpenRouter fallback fetch (`fetch_openrouter_pricing`, lines 143-245)

String helpers model Python's `in`, `str.replace`, `str.lower` and
`str.split('/', 1)[1]`.  A payload entry carries the fields the code reads;
`promptCost`/`completionCost` hold the parsed price when the raw field was
truthy (non-empty, non-zero-literal), and `none` otherwise, mirroring
`float(pricing.get('prompt', 0)) if pricing.get('prompt') else None`. -/

/-- Whether the second list starts with the first (pattern) list. -/
def startsWithL : List Char → List Char → Bool
  | [], _ => true
  | _ :: _, [] => false
  | p :: ps, c :: cs => p = c && startsWithL ps cs

/-- Python's `pat in s` on character lists. -/
def containsSubL (pat : List Char) : List Char → Bool
  | [] => startsWithL pat []
  | c :: r => startsWithL pat (c :: r) || containsSubL pat r

/-- Fuel-driven core of `str.replace`: left-to-right, non-overlapping.  The
fuel is the input length, enough since each step consumes at least one
character for a non-empty pattern. -/
def replaceGo (pat rep : List Char) : ℕ → List Char → List Char
  | _, [] => []
  | 0, l => l
  | fuel + 1, c :: r =>
      if startsWithL pat (c :: r) then
        rep ++ replaceGo pat rep fuel ((c :: r).drop pat.length)
      else c :: replaceGo pat rep fuel r

/-- Python's `s.replace(pat, rep)` on character lists (non-empty `pat`). -/
def replaceAllL (pat rep l : List Char) : List Char := replaceGo pat rep l.length l

/-- Python's `pat in s`. -/
def pyContains (s pat : String) : Bool := containsSubL pat.data s.data

/-- Python's `s.replace(pat, rep)`. -/
def pyReplace (s pat rep : String) : String := String.mk (replaceAllL pat.data rep.data s.data)

/-- Python's `s.lower()` (ASCII). -/
def pyLower (s : String) : String := String.mk (s.data.map pyLowerChar)

/-- Python's `s.split('/', 1)[1]` on character lists (callers guard on
`'/' in s`). -/
def afterFirstSlashL : List Char → List Char
  | [] => []
  | c :: r => if c = '/' then r else afterFirstSlashL r

/-- Python's `s.split('/', 1)[1]`. -/
def afterFirstSlash (s : String) : String := String.mk (afterFirstSlashL s.data)

/-- One entry of the OpenRouter payload, with the fields the code reads. -/
structure ORModel where
  id : String
  canonical_slug : Option String
  hugging_face_id : Option String
  promptCost : Option ℚ
  completionCost : Option ℚ
  context_length : Option ℤ
  max_completion_tokens : Option ℤ
deriving DecidableEq

/-- The `model_data` record built at lines 198-208. -/
structure ModelData where
  input_cost_per_token : Option ℚ
  output_cost_per_token : Option ℚ
  max_input_tokens : Option ℤ
  max_output_tokens : Option ℤ
  litellm_provider : String
  mode : String
  openrouter_id : String
  canonical_slug : String
  hugging_face_id : String
deriving DecidableEq

/-- Lines 177-208: the conversion of one payload entry to `model_data`. -/
def toModelData (m : ORModel) : ModelData where
  input_cost_per_token := m.promptCost
  output_cost_per_token := m.completionCost
  max_input_tokens := m.context_length
  max_output_tokens := m.max_completion_tokens
  litellm_provider := "openrouter"
  mode := "chat"
  openrouter_id := m.id
  canonical_slug := pyLower (m.canonical_slug.getD "")
  hugging_face_id := pyLower (m.hugging_face_id.getD "")

/-- Python dict assignment `d[k] = v`: replace in place, else append. -/
def upsert {α : Type} (k : String) (v : α) : List (String × α) → List (String × α)
  | [] => [(k, v)]
  | (k2, v2) :: t => if k2 = k then (k, v) :: t else (k2, v2) :: upsert k v t

/-- The key list of an association-list dict, in insertion order. -/
def keys {α : Type} (l : List (String × α)) : List String := l.map Prod.fst

/-- First pass (lines 151-164): `all_models[model_id] = model`, skipping empty
ids.  (`free_model_bases` is also collected there but never read afterwards.) -/
def all_models (data : List ORModel) : List (String × ORModel) :=
  data.foldl (fun acc m => if m.id = "" then acc else upsert m.id m acc) []

/-- The `:free` marker (lines 162, 170). -/
def freeTag : String := ":free"

/-- `model_id.replace(':free', '')` (lines 163, 171). -/
def baseId (s : String) : String := pyReplace s freeTag ""

/-- Lines 213-216: also insert under the id without its provider namespace. -/
def addNoNs (md : ModelData) (midL : String) (acc : List (String × ModelData)) :
    List (String × ModelData) :=
  if '/' ∈ midL.data then upsert (afterFirstSlash midL) md acc else acc

/-- Lines 218-223: insert under the canonical slug (and the slug without its
namespace) when the slug is non-empty and differs from the id. -/
def addSlug (md : ModelData) (midL : String) (acc : List (String × ModelData)) :
    List (String × ModelData) :=
  if md.canonical_slug ≠ "" ∧ md.canonical_slug ≠ midL then
    if '/' ∈ md.canonical_slug.data then
      upsert (afterFirstSlash md.canonical_slug) md (upsert md.canonical_slug md acc)
    else upsert md.canonical_slug md acc
  else acc

/-- Lines 225-226: insert under the Hugging Face id when non-empty and new. -/
def addHf (md : ModelData) (midL : String) (acc : List (String × ModelData)) :
    List (String × ModelData) :=
  if md.hugging_face_id ≠ "" ∧ md.hugging_face_id ≠ midL ∧
      md.hugging_face_id ≠ md.canonical_slug then
    upsert md.hugging_face_id md acc
  else acc

/-- Second pass, one entry (lines 168-226): skip a `:free` id whose base id is
in `all_models`; otherwise, when a prompt or completion price is present,
insert `model_data` under the lowercased id and its derived identifiers. -/
def addEntry (allM : List (String × ORModel)) (acc : List (String × ModelData))
    (kv : String × ORModel) : List (String × ModelData) :=
  if pyContains kv.1 freeTag ∧ baseId kv.1 ∈ keys allM then acc
  else if kv.2.promptCost.isSome ∨ kv.2.completionCost.isSome then
    addHf (toModelData kv.2) (pyLower kv.1)
      (addSlug (toModelData kv.2) (pyLower kv.1)
        (addNoNs (toModelData kv.2) (pyLower kv.1)
          (upsert (pyLower kv.1) (toModelData kv.2) acc)))
  else acc

/-- `fetch_openrouter_pricing` after a successful HTTP fetch: both passes over
the payload. -/
def fetch_openrouter_pricing (data : List ORModel) : List (String × ModelData) :=
  (all_models data).foldl (addEntry (all_models data)) []

/-- A `:free` payload entry with no pricing fields and no paid sibling. -/
def freeOrphanEntry : ORModel := ⟨"x/a:free", none, none, none, none, none, none⟩

/-- A paid payload entry with id `"x/a"`. -/
def paidDemoEntry : ORModel := ⟨"x/a", none, none, some 1, some 1, none, none⟩

/-- A `:free` payload entry with pricing whose paid sibling `"x/a"` exists. -/
def freeDemoEntry : ORModel := ⟨"x/a:free", none, none, some 1, none, none, none⟩

/-- A `:free` payload entry with pricing and no paid sibling. -/
def freeSoloEntry : ORModel := ⟨"y/b:free", none, none, some 1, none, none, none⟩


/-! ## The leaderboard pipeline (module top level, lines 126-557)

The rows of the fetched DataFrame, the numeric coercion and sort of the
`Arena Score` column, rank assignment, name cleaning, matching, the
`groupby`/`select_best_pricing_row` deduplication, the left merge, and the
cost-cell conversion are modelled as explicit list transformations.

Two steps are nondeterministic in the source and enter as parameters:
`pandas.sort_values` defaults to quicksort, whose tie order among equal keys
is unspecified, so the sort is any function whose output satisfies
`sortSpec`; and `find_best_match_with_logging` iterates Python sets of name
variants, whose iteration order depends on per-process string-hash
randomisation, so the matcher is a parameter `matchF` applied to the cleaned
model name. -/

/-- One leaderboard row as fetched (the ten parsed fields, after the column
renaming of lines 131-136, which changes only column labels). -/
structure LBRow where
  rank_icon : Option String
  model : Option String
  arena_elo : Option String
  coding : Option String
  vision : Option String
  aaii : Option String
  mmlu_pro : Option String
  arc_agi : Option String
  organisation : Option String
  license : Option String
deriving DecidableEq, Inhabited

/-- A parsed ten-field record as an `LBRow`. -/
def toLBRow (fs : List (Option String)) : LBRow :=
  ⟨fs.getD 0 none, fs.getD 1 none, fs.getD 2 none, fs.getD 3 none, fs.getD 4 none,
   fs.getD 5 none, fs.getD 6 none, fs.getD 7 none, fs.getD 8 none, fs.getD 9 none⟩

/-- A decimal digit's value. -/
def digitVal? (c : Char) : Option ℕ :=
  if '0' ≤ c ∧ c ≤ '9' then some (c.toNat - 48) else none

/-- Parse a digit run left to right (all characters must be digits). -/
def parseDigitsAcc (acc : ℕ) : List Char → Option ℕ
  | [] => some acc
  | c :: r =>
      match digitVal? c with
      | some d => parseDigitsAcc (acc * 10 + d) r
      | none => none

/-- Split at the first `.`, if any. -/
def splitDot : List Char → List Char × Option (List Char)
  | [] => ([], none)
  | c :: r =>
      if c = '.' then ([], some r)
      else
        match splitDot r with
        | (a, b) => (c :: a, b)

/-- Parse an unsigned decimal numeral (integer part, optional fraction; at
least one digit). -/
def parseUnsigned (l : List Char) : Option ℚ :=
  match splitDot l with
  | (ip, none) =>
      if ip = [] then none else (parseDigitsAcc 0 ip).map (fun n => (n : ℚ))
  | (ip, some fp) =>
      if ip = [] ∧ fp = [] then none
      else
        match parseDigitsAcc 0 ip, parseDigitsAcc 0 fp with
        | some i, some f => some ((i : ℚ) + (f : ℚ) / (10 : ℚ) ^ fp.length)
        | _, _ => none

/-- `pd.to_numeric(x, errors="coerce")` on one cell (line 139): missing stays
missing, unparseable strings coerce to NaN (`none`).  Plain decimal numerals
with optional sign and fraction are modelled; the leaderboard scores are
plain integers (scientific notation is not modelled). -/
def pyToNumeric (x : Option String) : Option ℚ :=
  match x with
  | none => none
  | some s =>
      match pyStrip s.data with
      | '-' :: r => (parseUnsigned r).map (fun q => -q)
      | '+' :: r => parseUnsigned r
      | t => parseUnsigned t

/-- A leaderboard row with its coerced `Arena Score`. -/
structure ScoredRow where
  row : LBRow
  score : Option ℚ
deriving DecidableEq, Inhabited

/-- Line 139: coerce the score column. -/
def scoredOf (rows : List LBRow) : List ScoredRow :=
  rows.map (fun r => ⟨r, pyToNumeric r.arena_elo⟩)

/-- The key order of `sort_values('Arena Score', ascending=False,
na_position='last')`: higher scores first, missing scores last. -/
def scoreKeyLEb (a b : Option ℚ) : Bool :=
  match a, b with
  | some x, some y => decide (y ≤ x)
  | some _, none => true
  | none, some _ => false
  | none, none => true

/-- The output of the sort is ordered by descending score, nulls last. -/
def SortedByScore (l : List ScoredRow) : Prop :=
  l.Pairwise (fun a b => scoreKeyLEb a.score b.score = true)

/-- The guarantee of `sort_values` with the default quicksort (line 140): the
output is a permutation of the input, ordered by the key; the relative order
of tied rows is NOT specified. -/
def sortSpec (input output : List ScoredRow) : Prop :=
  output.Perm input ∧ SortedByScore output

/-- A sort function compatible with the `sort_values` contract. -/
def SortOK (f : List ScoredRow → List ScoredRow) : Prop := ∀ l, sortSpec l (f l)

/-- Insertion into a descending-sorted list (a stable sort's insert step). -/
def insertSorted (a : ScoredRow) : List ScoredRow → List ScoredRow
  | [] => [a]
  | b :: t => if scoreKeyLEb a.score b.score then a :: b :: t else b :: insertSorted a t

/-- Stable insertion sort by descending score, nulls last. -/
def insertionSortScore : List ScoredRow → List ScoredRow
  | [] => []
  | a :: t => insertSorted a (insertionSortScore t)

/-- A `sortSpec`-compliant sort that reverses the relative order of tied
rows: sort the reversed input stably. -/
def revTieSort (l : List ScoredRow) : List ScoredRow := insertionSortScore l.reverse

/-- A row with its assigned rank (line 141). -/
structure RankedRow where
  row : LBRow
  score : Option ℚ
  rank : ℕ
deriving DecidableEq, Inhabited

/-- Line 141: `df['Rank* (UB)'] = range(1, len(df) + 1)` after the sort. -/
def assignRanks (l : List ScoredRow) : List RankedRow :=
  (l.zip (List.range' 1 l.length)).map (fun p => ⟨p.1.row, p.1.score, p.2⟩)

/-- A row after name cleaning (line 383) and matching (line 446). -/
structure MatchedRow where
  row : LBRow
  score : Option ℚ
  rank : ℕ
  modelClean : Option String
  matched : Option String
deriving DecidableEq, Inhabited

/-- Lines 383 and 446: `df["Model"].map(clean)` and
`df['Model'].apply(find_best_match_with_logging)`. -/
def toMatched (matchF : Option String → Option String) (r : RankedRow) : MatchedRow :=
  ⟨r.row, r.score, r.rank, r.row.model.map clean, matchF (r.row.model.map clean)⟩

/-- First-occurrence deduplication of the group keys (the state machine form
keeps the fold kernel-computable).  `groupby` sorts its keys, but only the
key SET matters downstream: the merge looks rows up by key. -/
def uniqueKeysGo (seen : List String) : List String → List String
  | [] => []
  | k :: t => if k ∈ seen then uniqueKeysGo seen t else k :: uniqueKeysGo (k :: seen) t

/-- The distinct model keys of the catalog, in first-occurrence order. -/
def uniqueKeys (ks : List String) : List String := uniqueKeysGo [] ks

/-- Line 501: `model_df.groupby('model').apply(select_best_pricing_row)` —
one best row per distinct model key, each group in catalog order. -/
def model_df_best (catalog : List CatRow) : List CatRow :=
  (uniqueKeys (catalog.map CatRow.model)).filterMap
    (fun k => select_best_pricing_row (catalog.filter (fun r => r.model = k)))

/-- The pricing row a merge key finds: none for a null key (NaN merges with
nothing) or an absent key. -/
def lookupPricing (best : List CatRow) (key : Option String) : Option CatRow :=
  match key with
  | none => none
  | some k => best.find? (fun r => r.model = k)

/-- Lines 506-512: `df.merge(model_df_best, left_on='matched_model',
right_on='model', how='left')` — every left row joined with each matching
right row, or padded with nulls when the key is null or unmatched. -/
def mergeLeftGeneral (rows : List MatchedRow) (best : List CatRow) :
    List (MatchedRow × Option CatRow) :=
  rows.flatMap (fun r =>
    match r.matched with
    | none => [(r, none)]
    | some k =>
        match best.filter (fun c => c.model = k) with
        | [] => [(r, (none : Option CatRow))]
        | ms => ms.map (fun c => (r, some c)))

/-- One row of the final written table: the leaderboard columns, the added
rank/match columns, the joined pricing columns, and the five formatted cost
cells. -/
structure OutRow where
  rank_icon : Option String
  modelClean : Option String
  arenaScore : Option ℚ
  coding : Option String
  vision : Option String
  aaii : Option String
  mmlu_pro : Option String
  arc_agi : Option String
  organization : Option String
  license : Option String
  rankUB : ℕ
  matched : Option String
  modelKey : Option String
  provider : Option String
  inputCostCell : String
  outputCostCell : String
  reasoningCostRaw : Option ℚ
  inputBatchCell : String
  outputBatchCell : String
deriving DecidableEq, Inhabited

/-- Lines 515 and 530-599 applied to one merged row: `merged['model']`
back-filled from `matched_model`, and each recognized cost field converted.
Four of the five converted columns are then string-formatted by the loop at
lines 579-599; the reasoning column is NOT: its converted name
`output_cost_per_reasoning_per_million_tokens ($)` does not contain the
filter substring `cost_per_million_tokens` (line 569), so its values stay
numeric. -/
def toOutRow (p : MatchedRow × Option CatRow) : OutRow where
  rank_icon := p.1.row.rank_icon
  modelClean := p.1.modelClean
  arenaScore := p.1.score
  coding := p.1.row.coding
  vision := p.1.row.vision
  aaii := p.1.row.aaii
  mmlu_pro := p.1.row.mmlu_pro
  arc_agi := p.1.row.arc_agi
  organization := p.1.row.organisation
  license := p.1.row.license
  rankUB := p.1.rank
  matched := p.1.matched
  modelKey :=
    match p.2 with
    | some c => some c.model
    | none => p.1.matched
  provider := p.2.bind CatRow.litellm_provider
  inputCostCell := costCell (p.2.bind CatRow.input_cost_per_token)
  outputCostCell := costCell (p.2.bind CatRow.output_cost_per_token)
  reasoningCostRaw := convertCost (p.2.bind CatRow.output_cost_per_reasoning_token)
  inputBatchCell := costCell (p.2.bind CatRow.input_cost_per_token_batches)
  outputBatchCell := costCell (p.2.bind CatRow.output_cost_per_token_batches)

/-- The whole per-row pipeline from fetched rows and catalog to output rows,
parameterised by the sort and the matcher. -/
def pipelineOut (sortF : List ScoredRow → List ScoredRow)
    (matchF : Option String → Option String)
    (rows : List LBRow) (catalog : List CatRow) : List OutRow :=
  (mergeLeftGeneral ((assignRanks (sortF (scoredOf rows))).map (toMatched matchF))
    (model_df_best catalog)).map toOutRow

/-- One primary-catalog (LiteLLM JSON) entry's value fields. -/
structure CatVal where
  input_cost_per_token : Option ℚ
  output_cost_per_token : Option ℚ
  output_cost_per_reasoning_token : Option ℚ
  input_cost_per_token_batches : Option ℚ
  output_cost_per_token_batches : Option ℚ
  litellm_provider : Option String
deriving DecidableEq

/-- An OpenRouter `model_data` as a catalog value. -/
def mdToCatVal (md : ModelData) : CatVal :=
  ⟨md.input_cost_per_token, md.output_cost_per_token, none, none, none,
   some md.litellm_provider⟩

/-- Lines 259-261 and 367-369: fold fallback entries into `model_info`,
keeping the primary value on conflict (`if model_id not in model_info`). -/
def mergeInfo (info : List (String × CatVal)) (extra : List (String × ModelData)) :
    List (String × CatVal) :=
  extra.foldl
    (fun acc kv => if kv.1 ∈ keys acc then acc else acc ++ [(kv.1, mdToCatVal kv.2)])
    info

/-- Lines 374-384: `model_df` from `model_info`, with the model ids cleaned. -/
def toCatalog (info : List (String × CatVal)) : List CatRow :=
  info.map (fun kv =>
    ⟨clean kv.1, kv.2.input_cost_per_token, kv.2.output_cost_per_token,
     kv.2.output_cost_per_reasoning_token, kv.2.input_cost_per_token_batches,
     kv.2.output_cost_per_token_batches, kv.2.litellm_provider⟩)

/-- Lines 143-245: the fallback fetch catches every exception and returns an
empty mapping, so a failed fetch contributes nothing but does not abort. -/
def safeOR (r : Except String (List ORModel)) : List (String × ModelData) :=
  match r with
  | .error _ => []
  | .ok d => fetch_openrouter_pricing d

/-- The script skeleton: fetch and parse the leaderboard (fatal on error),
fetch the primary catalog (fatal on error), run the fallback fetch twice
(lines 256 and 358, errors swallowed), merge, run the pipeline, and only then
produce both artifacts (full table and 100-row preview). -/
def runScript (sortF : List ScoredRow → List ScoredRow)
    (matchF : Option String → Option String)
    (lbR : Except String (List (List Cell)))
    (priR : Except String (List (String × CatVal)))
    (fbR1 fbR2 : Except String (List ORModel)) :
    Except String (List OutRow × List OutRow) := do
  let cells ← lbR
  let parsed ← parse_leaderboard_html cells
  let pri ← priR
  let info1 := mergeInfo pri (safeOR fbR1)
  let info2 := mergeInfo info1 (safeOR fbR2)
  let out := pipelineOut sortF matchF (parsed.map toLBRow) (toCatalog info2)
  pure (out, out.take 100)

/-- Demo leaderboard row "A" with score 1200. -/
def lbRowA : LBRow :=
  ⟨some "A", some "m1", some "1200", none, none, none, none, none, some "OrgA", some "MIT"⟩

/-- Demo leaderboard row "B" with the same score 1200. -/
def lbRowB : LBRow :=
  ⟨some "B", some "m2", some "1200", none, none, none, none, none, some "OrgB", some "MIT"⟩

/-- Demo leaderboard row whose raw model name the pipeline rewrites. -/
def lbRowC : LBRow :=
  ⟨some "ic", some "A (x)/B", some "1300", none, none, none, none, none, some "Org", none⟩


/-- Demo catalog row with a per-token input cost of 15/1,000,000. -/
def costDemoRow : CatRow := ⟨"m", some (15/1000000), some 0, none, none, none, some "p"⟩

/-- Demo matched row with match key "m". -/
def matchedDemoRow : MatchedRow := ⟨lbRowA, some 1200, 1, some "m1", some "m"⟩

/-- Demo catalog row carrying only a reasoning cost. -/
def reasoningDemoRow : CatRow := ⟨"m", none, none, some 3, none, none, some "p"⟩


/-! ## Column order of the two written artifacts (lines 530-623)

The DataFrame's column order is modelled as a list of column names.  The
conversion loop appends each new cost column at the end (pandas column
assignment) and drops its source column; the CSV is written from a reordered
copy while the Markdown preview is rendered from `merged` itself. -/

/-- The five source/converted column-name pairs of lines 530-536. -/
def costConvertPairs : List (String × String) :=
  [("input_cost_per_token", "input_cost_per_million_tokens ($)"),
   ("output_cost_per_token", "output_cost_per_million_tokens ($)"),
   ("output_cost_per_reasoning_token",
    "output_cost_per_reasoning_per_million_tokens ($)"),
   ("input_cost_per_token_batches", "input_cost_per_million_tokens_batches ($)"),
   ("output_cost_per_token_batches", "output_cost_per_million_tokens_batches ($)")]

/-- One step of the conversion loop (lines 537-557) on the column order: when
the source column exists, the converted column is assigned (appended at the
end unless already present) and the source column dropped. -/
def convertColsStep (cs : List String) (p : String × String) : List String :=
  if p.1 ∈ cs then
    if p.2 ∈ cs then cs.erase p.1 else (cs ++ [p.2]).erase p.1
  else cs

/-- The column order after the conversion loop. -/
def convertCols (cols : List String) : List String :=
  costConvertPairs.foldl convertColsStep cols

/-- Lines 569 and 607: a cost column is one whose name contains
`cost_per_million_tokens`. -/
def isCostCol (c : String) : Bool := pyContains c "cost_per_million_tokens"

/-- Line 611. -/
def essential_cols : List String :=
  ["rank_icon", "Model", "Arena Score", "Organization", "License"]

/-- Lines 606-615: the CSV's column order — essential columns, then cost
columns, then the remaining columns in arrival order. -/
def csvColumnOrder (cols : List String) : List String :=
  essential_cols ++ cols.filter isCostCol ++
    ((cols.filter (fun c => ¬ isCostCol c)).filter (fun c => c ∉ essential_cols))

/-- Lines 621-623: `merged.head(100).to_markdown` keeps the merged column
order unchanged. -/
def previewColumnOrder (cols : List String) : List String := cols

/-- The merged table's columns before conversion: the renamed leaderboard
columns and added rank/match columns, then the right table's columns
(`model` first, then the catalog's value columns). -/
def leadCols : List String :=
  ["rank_icon", "Model", "Arena Score", "coding", "vision", "aaii",
   "mmlu_pro", "arc_agi", "Organization", "License", "Rank* (UB)",
   "matched_model"]

/-- The merged column order for a given set of catalog value columns. -/
def mergedCols (catCols : List String) : List String :=
  leadCols ++ "model" :: catCols

/-- A catalog column set carrying all five per-token cost fields. -/
def fullCatCols : List String :=
  ["litellm_provider", "mode", "input_cost_per_token", "output_cost_per_token",
   "output_cost_per_reasoning_token", "input_cost_per_token_batches",
   "output_cost_per_token_batches"]


-- Validation of the scanners against the Python regex engine on the probes
-- used while modelling (each output was checked against `re.sub`).
example : clean "A (x)/B" = "b" := by decide
example : clean "a/ (b)/c " = "c" := by decide
example : stripParens "x (a) (b) y".data = "xy".data := by decide
example : stripParens "(a()b)".data = "b)".data := by decide
example : stripParens "((a))".data = ")".data := by decide
example : stripParens "  ( x ) y".data = "y".data := by decide
example : stripParens "(a\n (x)".data = "(a".data := by decide
example : stripTags "<<a>>".data = ">".data := by decide
example : stripTags "a>b<c".data = "a>b<c".data := by decide
example : stripTags "<a<b\n>".data = "<a<b\n>".data := by decide
example : clean "(\n(a)\n)" = "()" := by decide
example : clean "()" = "" := by decide

/-! ## Facts about the character helpers -/

theorem pyLowerChar_fix {d : Char}
    (h : d ∉ ['A','B','C','D','E','F','G','H','I','J','K','L','M',
              'N','O','P','Q','R','S','T','U','V','W','X','Y','Z']) :
    pyLowerChar d = d := by
  unfold pyLowerChar
  split <;> simp_all

set_option maxHeartbeats 1000000 in
theorem pyLowerChar_notUpper (c : Char) :
    pyLowerChar c ∉ ['A','B','C','D','E','F','G','H','I','J','K','L','M',
                     'N','O','P','Q','R','S','T','U','V','W','X','Y','Z'] := by
  unfold pyLowerChar
  split <;> simp_all

theorem pyLowerChar_idem (c : Char) : pyLowerChar (pyLowerChar c) = pyLowerChar c :=
  pyLowerChar_fix (pyLowerChar_notUpper c)

set_option maxHeartbeats 1000000 in
theorem pyLowerChar_eq_sym {c x : Char}
    (hxU : x ∉ ['A','B','C','D','E','F','G','H','I','J','K','L','M',
                'N','O','P','Q','R','S','T','U','V','W','X','Y','Z'])
    (hxL : x ∉ ['a','b','c','d','e','f','g','h','i','j','k','l','m',
                'n','o','p','q','r','s','t','u','v','w','x','y','z']) :
    pyLowerChar c = x ↔ c = x := by
  unfold pyLowerChar
  split <;> simp_all [eq_comm]

set_option maxHeartbeats 1000000 in
theorem isPySpace_pyLowerChar (c : Char) : isPySpace (pyLowerChar c) = isPySpace c := by
  unfold pyLowerChar
  split <;> rfl

theorem isPySpace_ne {c : Char} (h : isPySpace c = true) :
    c ≠ '(' ∧ c ≠ ')' ∧ c ≠ '<' ∧ c ≠ '>' ∧ c ≠ '/' := by
  refine ⟨?_, ?_, ?_, ?_, ?_⟩ <;> rintro rfl <;> exact absurd h (by decide)

/-! ## Two-character forbidden patterns

`NoPat a b l` says the character `a` never occurs before a later occurrence
of `b` in `l`; equivalently `[a, b]` is not a sublist of `l`.  The scanners'
outputs satisfy `NoPat '<' '>'` and `NoPat '(' ')'` on newline-free input,
which is what makes a second pass of `clean` a no-op there. -/


theorem noPat_of_not_mem {a b : Char} {l : List Char} (h : b ∉ l) : NoPat a b l :=
  fun hs => h (hs.subset (by simp))

theorem noPat_nil {a b : Char} : NoPat a b [] :=
  noPat_of_not_mem (by simp)

theorem noPat_cons_iff {a b c : Char} {l : List Char} :
    NoPat a b (c :: l) ↔ (c = a → b ∉ l) ∧ NoPat a b l := by
  unfold NoPat
  rw [List.sublist_cons_iff]
  constructor
  · intro h
    refine ⟨?_, fun hs => h (Or.inl hs)⟩
    rintro rfl hb
    exact h (Or.inr ⟨[b], rfl, by simpa using hb⟩)
  · rintro ⟨h1, h2⟩ (hs | ⟨r, hr, hrs⟩)
    · exact h2 hs
    · obtain ⟨rfl, rfl⟩ : c = a ∧ r = [b] := by
        simpa [List.cons_eq_cons, eq_comm] using hr
      exact h1 rfl (by simpa using hrs.subset (by simp))

theorem noPat_cons {a b c : Char} {l : List Char} (h1 : c = a → b ∉ l)
    (h2 : NoPat a b l) : NoPat a b (c :: l) :=
  noPat_cons_iff.mpr ⟨h1, h2⟩

theorem noPat_append {a b : Char} {xs ys : List Char} (h1 : a ∉ xs)
    (h2 : NoPat a b ys) : NoPat a b (xs ++ ys) := by
  induction xs with
  | nil => simpa using h2
  | cons x xs ih =>
      simp only [List.cons_append]
      refine noPat_cons (fun hx => ?_) (ih (fun hm => h1 (List.mem_cons_of_mem _ hm)))
      exact absurd (hx ▸ List.mem_cons_self x xs) h1

theorem NoPat.sub {a b : Char} {t l : List Char} (hs : t.Sublist l) (h : NoPat a b l) :
    NoPat a b t := fun hp => h (hp.trans hs)

theorem noPat_map_pyLowerChar {a b : Char} {l : List Char}
    (haU : a ∉ ['A','B','C','D','E','F','G','H','I','J','K','L','M',
                'N','O','P','Q','R','S','T','U','V','W','X','Y','Z'])
    (haL : a ∉ ['a','b','c','d','e','f','g','h','i','j','k','l','m',
                'n','o','p','q','r','s','t','u','v','w','x','y','z'])
    (hbU : b ∉ ['A','B','C','D','E','F','G','H','I','J','K','L','M',
                'N','O','P','Q','R','S','T','U','V','W','X','Y','Z'])
    (hbL : b ∉ ['a','b','c','d','e','f','g','h','i','j','k','l','m',
                'n','o','p','q','r','s','t','u','v','w','x','y','z'])
    (h : NoPat a b l) : NoPat a b (l.map pyLowerChar) := by
  intro hs
  rw [List.sublist_map_iff] at hs
  obtain ⟨l', hl', hmap⟩ := hs
  match l', hmap with
  | [x, y], hmap =>
      obtain ⟨hx, hy⟩ : pyLowerChar x = a ∧ pyLowerChar y = b := by
        simpa [List.cons_eq_cons] using hmap.symm
      rw [pyLowerChar_eq_sym haU haL] at hx
      rw [pyLowerChar_eq_sym hbU hbL] at hy
      exact h (hx ▸ hy ▸ hl')

theorem not_mem_map_pyLowerChar {x : Char} {l : List Char}
    (hxU : x ∉ ['A','B','C','D','E','F','G','H','I','J','K','L','M',
                'N','O','P','Q','R','S','T','U','V','W','X','Y','Z'])
    (hxL : x ∉ ['a','b','c','d','e','f','g','h','i','j','k','l','m',
                'n','o','p','q','r','s','t','u','v','w','x','y','z'])
    (h : x ∉ l) : x ∉ l.map pyLowerChar := by
  intro hm
  rw [List.mem_map] at hm
  obtain ⟨c, hc, hcx⟩ := hm
  rw [pyLowerChar_eq_sym hxU hxL] at hcx
  exact h (hcx ▸ hc)

/-! ## Properties of the tag scanner -/


theorem stripTagsGo_sublist (l : List Char) :
    ∀ st, (stripTagsGo st l).Sublist (tagRep st ++ l) := by
  induction l with
  | nil =>
      intro st
      cases st <;> simp [stripTagsGo, tagRep]
  | cons c r ih =>
      intro st
      cases st with
      | none =>
          by_cases h : c = '<'
          · subst h
            simpa [stripTagsGo, tagRep] using ih (some [])
          · simpa [stripTagsGo, tagRep, h] using (ih none).cons₂ c
      | some buf =>
          by_cases h : c = '>'
          · subst h
            have h1 : (stripTagsGo none r).Sublist r := by simpa [tagRep] using ih none
            simpa [stripTagsGo, tagRep] using
              h1.trans ((List.sublist_cons_self '>' r).trans
                (List.sublist_append_right ('<' :: buf.reverse) ('>' :: r)))
          · by_cases hn : c = '\n'
            · subst hn
              have h1 : (stripTagsGo none r).Sublist r := by simpa [tagRep] using ih none
              simpa [stripTagsGo, tagRep, h] using (h1.cons₂ '\n').append_left ('<' :: buf.reverse)
            · simpa [stripTagsGo, tagRep, h, hn, List.reverse_cons, List.append_assoc]
                using ih (some (c :: buf))


theorem stripTagsGo_noPat (l : List Char) :
    ∀ st, '\n' ∉ l → TagInv st → NoPat '<' '>' (stripTagsGo st l) := by
  induction l with
  | nil =>
      intro st _ hinv
      cases st with
      | none => exact noPat_nil
      | some buf =>
          refine noPat_of_not_mem ?_
          simp only [stripTagsGo]
          intro hm
          rcases List.mem_cons.mp hm with h | h
          · exact absurd h (by decide)
          · exact hinv (List.mem_reverse.mp h)
  | cons c r ih =>
      intro st hn hinv
      have hnr : '\n' ∉ r := fun hm => hn (List.mem_cons_of_mem _ hm)
      have hnc : c ≠ '\n' := fun hc => hn (hc ▸ List.mem_cons_self _ _)
      cases st with
      | none =>
          by_cases h : c = '<'
          · subst h
            simpa [stripTagsGo] using ih (some []) hnr (by simp [TagInv])
          · simp only [stripTagsGo, if_neg h]
            exact noPat_cons (fun hc => absurd hc h) (ih none hnr trivial)
      | some buf =>
          by_cases h : c = '>'
          · subst h
            simpa [stripTagsGo] using ih none hnr trivial
          · simp only [stripTagsGo, if_neg h, if_neg hnc]
            refine ih (some (c :: buf)) hnr ?_
            simp only [TagInv, List.mem_cons]
            exact fun hm => hm.elim (fun he => h he.symm) hinv

theorem stripTagsGo_some_run (r : List Char) :
    ∀ buf, '>' ∉ r → '\n' ∉ r → stripTagsGo (some buf) r = '<' :: buf.reverse ++ r := by
  induction r with
  | nil => intro buf _ _; simp [stripTagsGo]
  | cons c r ih =>
      intro buf hg hn
      have hcg : c ≠ '>' := fun hc => hg (hc ▸ List.mem_cons_self _ _)
      have hcn : c ≠ '\n' := fun hc => hn (hc ▸ List.mem_cons_self _ _)
      have hgr : '>' ∉ r := fun hm => hg (List.mem_cons_of_mem _ hm)
      have hnr : '\n' ∉ r := fun hm => hn (List.mem_cons_of_mem _ hm)
      simp only [stripTagsGo, if_neg hcg, if_neg hcn]
      rw [ih (c :: buf) hgr hnr]
      simp [List.reverse_cons, List.append_assoc]

theorem stripTags_eq_self {l : List Char} (hn : '\n' ∉ l) (hp : NoPat '<' '>' l) :
    stripTags l = l := by
  unfold stripTags
  induction l with
  | nil => simp [stripTagsGo]
  | cons c r ih =>
      have hnr : '\n' ∉ r := fun hm => hn (List.mem_cons_of_mem _ hm)
      obtain ⟨h1, h2⟩ := noPat_cons_iff.mp hp
      by_cases h : c = '<'
      · subst h
        simp only [stripTagsGo, if_pos rfl]
        rw [stripTagsGo_some_run r [] (h1 rfl) hnr]
        rfl
      · simp only [stripTagsGo, if_neg h]
        rw [ih hnr h2]

/-! ## Properties of the paren scanner -/


theorem stripParensGo_sublist (l : List Char) :
    ∀ st, (stripParensGo st l).Sublist (parenRep st ++ l) := by
  induction l with
  | nil =>
      intro st
      cases st <;> simp [stripParensGo, parenRep]
  | cons c r ih =>
      intro st
      cases st with
      | outside =>
          by_cases h1 : c = '('
          · subst h1
            simpa [stripParensGo, parenRep] using ih (.inner [] [])
          · by_cases h2 : isPySpace c
            · simpa [stripParensGo, parenRep, h1, h2] using ih (.spaces [c])
            · simpa [stripParensGo, parenRep, h1, h2] using (ih .outside).cons₂ c
      | spaces ws =>
          by_cases h1 : c = '('
          · subst h1
            simpa [stripParensGo, parenRep] using ih (.inner ws [])
          · by_cases h2 : isPySpace c
            · simpa [stripParensGo, parenRep, h1, h2, List.append_assoc] using ih (.spaces (ws ++ [c]))
            · simpa [stripParensGo, parenRep, h1, h2] using ((ih .outside).cons₂ c).append_left ws
      | inner ws buf =>
          by_cases h1 : c = ')'
          · subst h1
            have hgo : (stripParensGo .after r).Sublist r := by simpa [parenRep] using ih .after
            simpa [stripParensGo, parenRep] using
              hgo.trans ((List.sublist_cons_self ')' r).trans
                (List.sublist_append_right (ws ++ '(' :: buf.reverse) (')' :: r)))
          · by_cases h2 : c = '\n'
            · subst h2
              have hgo : (stripParensGo (.spaces ['\n']) r).Sublist ('\n' :: r) := by
                simpa [parenRep] using ih (.spaces ['\n'])
              simpa [stripParensGo, parenRep, h1] using hgo.append_left (ws ++ '(' :: buf.reverse)
            · simpa [stripParensGo, parenRep, h1, h2, List.reverse_cons, List.append_assoc]
                using ih (.inner ws (c :: buf))
      | after =>
          by_cases h2 : isPySpace c
          · have hgo : (stripParensGo .after r).Sublist r := by simpa [parenRep] using ih .after
            have : c ≠ '(' := (isPySpace_ne h2).1
            simpa [stripParensGo, parenRep, h2] using hgo.trans (List.sublist_cons_self c r)
          · by_cases h1 : c = '('
            · subst h1
              simpa [stripParensGo, parenRep, h2] using ih (.inner [] [])
            · simpa [stripParensGo, parenRep, h1, h2] using (ih .outside).cons₂ c

theorem stripParensGo_noPat (l : List Char) :
    ∀ st, '\n' ∉ l → ParenInv st → NoPat '(' ')' (stripParensGo st l) := by
  induction l with
  | nil =>
      intro st _ hinv
      cases st with
      | outside => exact noPat_nil
      | spaces ws => exact noPat_of_not_mem (by simpa [ParenInv] using hinv.2)
      | inner ws buf =>
          refine noPat_of_not_mem ?_
          simp only [stripParensGo, List.mem_append, List.mem_cons]
          rintro (h | h | h)
          · exact hinv.2.1 h
          · exact absurd h (by decide)
          · exact hinv.2.2 (List.mem_reverse.mp h)
      | after => exact noPat_nil
  | cons c r ih =>
      intro st hn hinv
      have hnr : '\n' ∉ r := fun hm => hn (List.mem_cons_of_mem _ hm)
      have hnc : c ≠ '\n' := fun hc => hn (hc ▸ List.mem_cons_self _ _)
      cases st with
      | outside =>
          by_cases h1 : c = '('
          · subst h1
            simpa [stripParensGo] using ih (.inner [] []) hnr (by simp [ParenInv])
          · by_cases h2 : isPySpace c
            · simp only [stripParensGo, if_neg h1, if_pos h2]
              refine ih (.spaces [c]) hnr ?_
              have := isPySpace_ne h2
              simp [ParenInv, this.1, this.2.1, eq_comm]
            · simp only [stripParensGo, if_neg h1, if_neg h2]
              exact noPat_cons (fun hc => absurd hc h1) (ih .outside hnr trivial)
      | spaces ws =>
          by_cases h1 : c = '('
          · subst h1
            simpa [stripParensGo] using
              ih (.inner ws []) hnr (by simp [ParenInv, hinv.1, hinv.2])
          · by_cases h2 : isPySpace c
            · simp only [stripParensGo, if_neg h1, if_pos h2]
              refine ih (.spaces (ws ++ [c])) hnr ?_
              have hcc := isPySpace_ne h2
              constructor
              · simp [List.mem_append, hinv.1, hcc.1, eq_comm]
              · simp [List.mem_append, hinv.2, hcc.2.1, eq_comm]
            · simp only [stripParensGo, if_neg h1, if_neg h2]
              refine noPat_append hinv.1 ?_
              exact noPat_cons (fun hc => absurd hc h1) (ih .outside hnr trivial)
      | inner ws buf =>
          by_cases h1 : c = ')'
          · subst h1
            simpa [stripParensGo] using ih .after hnr trivial
          · simp only [stripParensGo, if_neg h1, if_neg hnc]
            refine ih (.inner ws (c :: buf)) hnr ?_
            refine ⟨hinv.1, hinv.2.1, ?_⟩
            simp only [List.mem_cons]
            exact fun hm => hm.elim (fun he => h1 he.symm) hinv.2.2
      | after =>
          by_cases h2 : isPySpace c
          · simpa [stripParensGo, h2] using ih .after hnr trivial
          · by_cases h1 : c = '('
            · subst h1
              simpa [stripParensGo, h2] using ih (.inner [] []) hnr (by simp [ParenInv])
            · simp only [stripParensGo, if_neg h1, if_neg h2]
              exact noPat_cons (fun hc => absurd hc h1) (ih .outside hnr trivial)

theorem stripParensGo_inner_run (r : List Char) :
    ∀ ws buf, ')' ∉ r → '\n' ∉ r →
      stripParensGo (.inner ws buf) r = ws ++ '(' :: buf.reverse ++ r := by
  induction r with
  | nil => intro ws buf _ _; simp [stripParensGo]
  | cons c r ih =>
      intro ws buf hg hn
      have hcg : c ≠ ')' := fun hc => hg (hc ▸ List.mem_cons_self _ _)
      have hcn : c ≠ '\n' := fun hc => hn (hc ▸ List.mem_cons_self _ _)
      have hgr : ')' ∉ r := fun hm => hg (List.mem_cons_of_mem _ hm)
      have hnr : '\n' ∉ r := fun hm => hn (List.mem_cons_of_mem _ hm)
      simp only [stripParensGo, if_neg hcg, if_neg hcn]
      rw [ih ws (c :: buf) hgr hnr]
      simp [List.reverse_cons, List.append_assoc]

theorem stripParensGo_eq_self {l : List Char} (hn : '\n' ∉ l) (hp : NoPat '(' ')' l) :
    stripParensGo .outside l = l ∧ ∀ ws, stripParensGo (.spaces ws) l = ws ++ l := by
  induction l with
  | nil => exact ⟨rfl, fun ws => by simp [stripParensGo]⟩
  | cons c r ih =>
      have hnr : '\n' ∉ r := fun hm => hn (List.mem_cons_of_mem _ hm)
      obtain ⟨h1, h2⟩ := noPat_cons_iff.mp hp
      obtain ⟨ihO, ihS⟩ := ih hnr h2
      constructor
      · by_cases hc : c = '('
        · subst hc
          simp only [stripParensGo, if_pos rfl]
          rw [stripParensGo_inner_run r [] [] (h1 rfl) hnr]
          rfl
        · by_cases hs : isPySpace c
          · simp only [stripParensGo, if_neg hc, if_pos hs]
            rw [ihS [c]]
            rfl
          · simp only [stripParensGo, if_neg hc, if_neg hs]
            rw [ihO]
      · intro ws
        by_cases hc : c = '('
        · subst hc
          simp only [stripParensGo, if_pos rfl]
          rw [stripParensGo_inner_run r ws [] (h1 rfl) hnr]
          simp
        · by_cases hs : isPySpace c
          · simp only [stripParensGo, if_neg hc, if_pos hs]
            rw [ihS (ws ++ [c])]
            simp [List.append_assoc]
          · simp only [stripParensGo, if_neg hc, if_neg hs]
            rw [ihO]

theorem stripParens_eq_self {l : List Char} (hn : '\n' ∉ l) (hp : NoPat '(' ')' l) :
    stripParens l = l :=
  (stripParensGo_eq_self hn hp).1


/-! ## Properties of `lastSlash` and `pyStrip` -/

theorem lastSlash_sublist (l : List Char) : (lastSlash l).Sublist l := by
  induction l with
  | nil => simp [lastSlash]
  | cons c r ih =>
      by_cases h : c = '/' ∨ '/' ∈ r
      · simp only [lastSlash, if_pos h]
        exact ih.trans (List.sublist_cons_self c r)
      · simp only [lastSlash, if_neg h]
        exact List.Sublist.refl _

theorem slash_not_mem_lastSlash (l : List Char) : '/' ∉ lastSlash l := by
  induction l with
  | nil => simp [lastSlash]
  | cons c r ih =>
      by_cases h : c = '/' ∨ '/' ∈ r
      · simp only [lastSlash, if_pos h]
        exact ih
      · simp only [lastSlash, if_neg h]
        push_neg at h
        simp only [List.mem_cons, not_or]
        exact ⟨fun he => h.1 he.symm, h.2⟩

theorem lastSlash_eq_self {l : List Char} (h : '/' ∉ l) : lastSlash l = l := by
  induction l with
  | nil => rfl
  | cons c r ih =>
      have h1 : c ≠ '/' := fun hc => h (hc ▸ List.mem_cons_self _ _)
      have h2 : '/' ∉ r := fun hm => h (List.mem_cons_of_mem _ hm)
      have hcond : ¬ (c = '/' ∨ '/' ∈ r) := by
        push_neg
        exact ⟨h1, h2⟩
      simp [lastSlash, hcond]

theorem pyStrip_sublist (l : List Char) : (pyStrip l).Sublist l := by
  unfold pyStrip
  refine List.Sublist.trans ?_ (List.dropWhile_sublist (p := isPySpace) (l := l))
  have h2 := List.reverse_sublist.mpr
    (List.dropWhile_sublist (p := isPySpace) (l := (List.dropWhile isPySpace l).reverse))
  simpa using h2

theorem dropWhile_head_false {α : Type} {p : α → Bool} {z : List α} {x : α} {xs : List α}
    (h : List.dropWhile p z = x :: xs) : p x = false := by
  induction z with
  | nil => simp at h
  | cons a r ih =>
      rw [List.dropWhile_cons] at h
      by_cases hp : p a = true
      · exact ih (by simpa [hp] using h)
      · obtain ⟨rfl, -⟩ : a = x ∧ r = xs := by
          simpa [hp, List.cons_eq_cons] using h
        simpa using hp

theorem pyStrip_map_pyLowerChar (l : List Char) :
    pyStrip (l.map pyLowerChar) = (pyStrip l).map pyLowerChar := by
  have hcomp : (isPySpace ∘ pyLowerChar) = isPySpace := funext isPySpace_pyLowerChar
  have hpf : ∀ (m : List Char),
      List.dropWhile isPySpace (m.map pyLowerChar) =
        (List.dropWhile isPySpace m).map pyLowerChar := by
    intro m
    rw [List.dropWhile_map, hcomp]
  unfold pyStrip
  rw [hpf l, ← List.map_reverse, hpf, List.map_reverse]

theorem dropWhile_fix_of_cons {α : Type} {p : α → Bool} {a : α} {t : List α}
    (hy : List.dropWhile p (a :: t) = a :: t) : p a = false := by
  by_cases hp : p a = true
  · rw [List.dropWhile_cons, if_pos hp] at hy
    have hlen := congrArg List.length hy
    have hle := (List.dropWhile_sublist (p := p) (l := t)).length_le
    simp only [List.length_cons] at hlen
    omega
  · simpa using hp

theorem backStrip_decomp {α : Type} (p : α → Bool) (y : List α) :
    y = (List.dropWhile p y.reverse).reverse ++ (List.takeWhile p y.reverse).reverse := by
  conv_lhs => rw [← List.reverse_reverse y,
    ← List.takeWhile_append_dropWhile (p := p) (l := y.reverse)]
  rw [List.reverse_append]

theorem dropWhile_backStrip_fix {α : Type} (p : α → Bool) {y : List α}
    (hy : List.dropWhile p y = y) :
    List.dropWhile p (List.dropWhile p y.reverse).reverse
      = (List.dropWhile p y.reverse).reverse := by
  rcases hc : (List.dropWhile p y.reverse).reverse with _ | ⟨x, xs⟩
  · simp
  · have hyx : y = x :: (xs ++ (List.takeWhile p y.reverse).reverse) := by
      have hdec := backStrip_decomp p y
      rw [hc] at hdec
      simpa using hdec
    have hy2 := hy
    rw [hyx] at hy2
    have hpx : p x = false := dropWhile_fix_of_cons hy2
    rw [List.dropWhile_cons, hpx]
    simp

theorem pyStrip_idem (l : List Char) : pyStrip (pyStrip l) = pyStrip l := by
  have h1 : List.dropWhile isPySpace (pyStrip l) = pyStrip l := by
    simpa [pyStrip] using
      dropWhile_backStrip_fix isPySpace (List.dropWhile_idempotent isPySpace l)
  calc pyStrip (pyStrip l)
      = ((List.dropWhile isPySpace (pyStrip l)).reverse.dropWhile isPySpace).reverse := rfl
    _ = ((pyStrip l).reverse.dropWhile isPySpace).reverse := by rw [h1]
    _ = pyStrip l := by
          unfold pyStrip
          rw [List.reverse_reverse, List.dropWhile_idempotent]

/-! ## Idempotence of `clean` on newline-free input -/

theorem cleanL_props {l : List Char} (hn : '\n' ∉ l) :
    '\n' ∉ cleanL l ∧ NoPat '<' '>' (cleanL l) ∧ NoPat '(' ')' (cleanL l) ∧
      '/' ∉ cleanL l ∧ pyStrip (cleanL l) = cleanL l := by
  have hTsub : (stripTags l).Sublist l := by
    simpa [tagRep] using stripTagsGo_sublist l none
  have hPsub : (stripParens (stripTags l)).Sublist (stripTags l) := by
    simpa [parenRep] using stripParensGo_sublist (stripTags l) PState.outside
  have hSsub := lastSlash_sublist (stripParens (stripTags l))
  have hRsub := pyStrip_sublist (lastSlash (stripParens (stripTags l)))
  have hnT : '\n' ∉ stripTags l := fun hm => hn (hTsub.subset hm)
  have hnP : '\n' ∉ stripParens (stripTags l) := fun hm => hnT (hPsub.subset hm)
  have hnS : '\n' ∉ lastSlash (stripParens (stripTags l)) := fun hm => hnP (hSsub.subset hm)
  have hnR : '\n' ∉ pyStrip (lastSlash (stripParens (stripTags l))) := fun hm => hnS (hRsub.subset hm)
  have hTag : NoPat '<' '>' (stripTags l) := stripTagsGo_noPat l none hn trivial
  have hParen : NoPat '(' ')' (stripParens (stripTags l)) :=
    stripParensGo_noPat (stripTags l) PState.outside hnT trivial
  have hTagR : NoPat '<' '>' (pyStrip (lastSlash (stripParens (stripTags l)))) :=
    ((hTag.sub hPsub).sub hSsub).sub hRsub |> id
  have hParenR : NoPat '(' ')' (pyStrip (lastSlash (stripParens (stripTags l)))) :=
    (hParen.sub hSsub).sub hRsub
  have hSl : '/' ∉ lastSlash (stripParens (stripTags l)) :=
    slash_not_mem_lastSlash _
  have hSlR : '/' ∉ pyStrip (lastSlash (stripParens (stripTags l))) :=
    fun hm => hSl (hRsub.subset hm)
  refine ⟨?_, ?_, ?_, ?_, ?_⟩
  · exact not_mem_map_pyLowerChar (by decide) (by decide) hnR
  · exact noPat_map_pyLowerChar (by decide) (by decide) (by decide) (by decide) hTagR
  · exact noPat_map_pyLowerChar (by decide) (by decide) (by decide) (by decide) hParenR
  · exact not_mem_map_pyLowerChar (by decide) (by decide) hSlR
  · unfold cleanL
    rw [pyStrip_map_pyLowerChar, pyStrip_idem]

theorem cleanL_idem {l : List Char} (hn : '\n' ∉ l) : cleanL (cleanL l) = cleanL l := by
  obtain ⟨h1, h2, h3, h4, h5⟩ := cleanL_props hn
  conv_lhs => rw [cleanL]
  rw [stripTags_eq_self h1 h2]
  rw [stripParens_eq_self h1 h3]
  rw [lastSlash_eq_self h4]
  rw [h5]
  unfold cleanL
  rw [List.map_map]
  congr 1
  funext c
  exact pyLowerChar_idem c


/-! ## Claim C6 — idempotence of `clean` -/

/-- Claim C6 as stated is false: on `"(\n(a)\n)"` one `clean` pass yields
`"()"` (the lazy paren pattern cannot cross the newlines, but deleting the
inner match glues `(` and `)` together), and a second pass deletes the glued
pair, yielding `""`. -/
theorem clean_not_idempotent :
    clean (clean "(\n(a)\n)") ≠ clean "(\n(a)\n)" := by decide

/-- Claim C6, amended: the cleaning pipeline is idempotent on every string
that contains no newline character (the counterexample above needs a newline;
`.` in the two regexes does not match one). -/
theorem clean_idempotent_of_no_newline (s : String) (h : '\n' ∉ s.data) :
    clean (clean s) = clean s :=
  congrArg String.mk (cleanL_idem h)

/-- Witness for `clean_idempotent_of_no_newline` at `"A (x)/B"`. -/
theorem clean_idempotent_of_no_newline_witness :
    '\n' ∉ "A (x)/B".data ∧ clean (clean "A (x)/B") = clean "A (x)/B" :=
  ⟨by decide, clean_idempotent_of_no_newline "A (x)/B" (by decide)⟩

/-! Evaluation lemmas for the formatting model (rational arithmetic does not
kernel-reduce, so concrete values are computed through `norm_num`). -/

theorem roundHalfEven_of_lt {q : ℚ} {f : ℤ} (hf : ⌊q⌋ = f) (h : q - f < 1/2) :
    roundHalfEven q = f := by
  unfold roundHalfEven
  rw [hf, if_pos h]

theorem roundHalfEven_of_gt {q : ℚ} {f : ℤ} (hf : ⌊q⌋ = f) (h : 1/2 < q - f) :
    roundHalfEven q = f + 1 := by
  unfold roundHalfEven
  rw [hf, if_neg (by linarith), if_pos h]

theorem roundHalfEven_tie_even {q : ℚ} {f : ℤ} (hf : ⌊q⌋ = f) (h : q - f = 1/2)
    (he : f % 2 = 0) : roundHalfEven q = f := by
  unfold roundHalfEven
  rw [hf, if_neg (by rw [h]; exact lt_irrefl _), if_neg (by rw [h]; exact lt_irrefl _),
    if_pos he]

theorem roundHalfEven_tie_odd {q : ℚ} {f : ℤ} (hf : ⌊q⌋ = f) (h : q - f = 1/2)
    (he : f % 2 ≠ 0) : roundHalfEven q = f + 1 := by
  unfold roundHalfEven
  rw [hf, if_neg (by rw [h]; exact lt_irrefl _), if_neg (by rw [h]; exact lt_irrefl _),
    if_neg he]

theorem fmt2_of_nonneg {q : ℚ} {n : ℕ} (h0 : 0 ≤ q)
    (hn : roundHalfEven (q * 100) = (n : ℤ)) :
    fmt2 q = toString (n / 100) ++ "." ++ pad2 (n % 100) := by
  unfold fmt2
  rw [abs_of_nonneg h0, hn, if_neg (not_lt.mpr h0)]
  simp

theorem fmt2_of_neg {q : ℚ} {n : ℕ} (h0 : q < 0)
    (hn : roundHalfEven (-q * 100) = (n : ℤ)) :
    fmt2 q = "-" ++ toString (n / 100) ++ "." ++ pad2 (n % 100) := by
  unfold fmt2
  rw [abs_of_neg h0, hn, if_pos h0]
  simp

-- Validation of the formatting model against Python `f"{x:.2f}"` outputs.
example : fmt2 15 = "15.00" := by
  rw [fmt2_of_nonneg (n := 1500) (by norm_num)
    (roundHalfEven_of_lt (f := 1500) (by norm_num) (by norm_num))]
  decide

example : fmt2 (15/10) = "1.50" := by
  rw [fmt2_of_nonneg (n := 150) (by norm_num)
    (roundHalfEven_of_lt (f := 150) (by norm_num) (by norm_num))]
  decide

example : fmt2 (1/300) = "0.00" := by
  rw [fmt2_of_nonneg (n := 0) (by norm_num)
    (roundHalfEven_of_lt (f := 0) (by rw [Int.floor_eq_iff] <;> norm_num) (by norm_num))]
  decide

example : fmt2 (125/1000) = "0.12" := by
  rw [fmt2_of_nonneg (n := 12) (by norm_num)
    (roundHalfEven_tie_even (f := 12) (by rw [Int.floor_eq_iff] <;> norm_num)
      (by norm_num) (by norm_num))]
  decide

example : fmt2 (375/1000) = "0.38" := by
  rw [fmt2_of_nonneg (n := 38) (by norm_num)
    (roundHalfEven_tie_odd (f := 37) (by rw [Int.floor_eq_iff] <;> norm_num)
      (by norm_num) (by norm_num))]
  decide

example : fmt2 (-125/1000) = "-0.12" := by
  rw [fmt2_of_neg (n := 12) (by norm_num)
    (roundHalfEven_tie_even (f := 12) (by rw [Int.floor_eq_iff] <;> norm_num)
      (by norm_num) (by norm_num))]
  decide

example : costCell none = "" := by decide


/-! ## Claim C3 — the pricing-row selector -/

theorem filter_head_eq_find {α : Type} (p : α → Bool) (l : List α) :
    (l.filter p).head? = l.find? p := by
  induction l with
  | nil => rfl
  | cons a t ih =>
      by_cases h : p a
      · simp [List.filter_cons, List.find?_cons, h]
      · simp [List.filter_cons, List.find?_cons, h, ih]

theorem filter_and_comm {α : Type} (p q : α → Bool) (l : List α) :
    (l.filter p).filter q = l.filter (fun a => p a && q a) := by
  induction l with
  | nil => rfl
  | cons a t ih =>
      by_cases h : p a <;> by_cases h2 : q a <;>
        simp [List.filter_cons, h, h2, ih]

theorem find_none_of_filter_nil {α : Type} {p : α → Bool} {l : List α}
    (h : l.filter p = []) : l.find? p = none := by
  rw [← filter_head_eq_find, h]
  rfl

theorem find_filter {α : Type} (p q : α → Bool) (l : List α) :
    (l.filter p).find? q = l.find? (fun a => p a && q a) := by
  rw [← filter_head_eq_find, ← filter_head_eq_find, filter_and_comm]

/-- Claim C3 as stated is false in its tie-breaking clause: among allow-listed
rows with full positive pricing, the code takes the first row in group order
(`primary_matches.iloc[0]`, line 480), not the row whose provider comes first
in the allow-list.  On the group `[anthropicRow, openaiRow]` the code returns
the `"anthropic"` row, while the claimed listed-order preference (formalised
by `select_primary_listed_order`) returns the `"openai"` row. -/
theorem select_best_not_listed_order :
    select_best_pricing_row [anthropicRow, openaiRow] = some anthropicRow ∧
    select_primary_listed_order [anthropicRow, openaiRow] = some openaiRow ∧
    anthropicRow ≠ openaiRow := by
  refine ⟨?_, ?_, ?_⟩ <;> decide

/-- Claim C3, amended: the selector follows the claimed four-tier cascade,
except that among allow-listed rows with positive pricing it takes the first
such row in group order (not in allow-list listed order).  Tier by tier: the
first row in group order with both costs positive and an allow-listed
provider; else the first row with both costs positive; else the first row
with both costs present; else the first row with input cost present; else the
first row.  In particular a group holding an "openai" row and a
non-allow-listed row, both fully priced, selects the "openai" row. -/
theorem select_best_pricing_row_cascade :
    (∀ g : List CatRow,
      select_best_pricing_row g =
        ((((g.find? (fun r => bothCostsPos r && isPrimaryProvider r)).or
            (g.find? bothCostsPos)).or
            (g.find? bothCosts)).or
            (g.find? hasInputCost)).or
          g.head?) ∧
    select_best_pricing_row [otherProviderRow, openaiRow] = some openaiRow ∧
    select_best_pricing_row [openaiRow, otherProviderRow] = some openaiRow := by
  refine ⟨?_, by decide, by decide⟩
  intro g
  unfold select_best_pricing_row
  by_cases h1 : g.filter bothCostsPos = []
  · have f1 : g.find? bothCostsPos = none := find_none_of_filter_nil h1
    have f0 : g.find? (fun r => bothCostsPos r && isPrimaryProvider r) = none := by
      apply find_none_of_filter_nil
      rw [← filter_and_comm, h1]
      rfl
    rw [if_neg (not_not_intro h1)]
    by_cases h2 : g.filter bothCosts = []
    · have f2 : g.find? bothCosts = none := find_none_of_filter_nil h2
      rw [if_neg (not_not_intro h2)]
      by_cases h3 : g.filter hasInputCost = []
      · have f3 : g.find? hasInputCost = none := find_none_of_filter_nil h3
        rw [if_neg (not_not_intro h3), f0, f1, f2, f3]
        rfl
      · rw [if_pos h3, filter_head_eq_find, f0, f1, f2]
        rcases hf : g.find? hasInputCost with _ | v
        · exfalso
          apply h3
          exact List.head?_eq_none_iff.mp (by rw [filter_head_eq_find, hf])
        · rfl
    · rw [if_pos h2, filter_head_eq_find, f0, f1]
      rcases hf : g.find? bothCosts with _ | v
      · exfalso
        apply h2
        exact List.head?_eq_none_iff.mp (by rw [filter_head_eq_find, hf])
      · rfl
  · rw [if_pos h1]
    by_cases hp : (g.filter bothCostsPos).filter isPrimaryProvider = []
    · have f0 : g.find? (fun r => bothCostsPos r && isPrimaryProvider r) = none := by
        apply find_none_of_filter_nil
        rw [← filter_and_comm]
        exact hp
      rw [if_neg (not_not_intro hp), filter_head_eq_find, f0]
      rcases hf : g.find? bothCostsPos with _ | v
      · exfalso
        apply h1
        exact List.head?_eq_none_iff.mp (by rw [filter_head_eq_find, hf])
      · rfl
    · rw [if_pos hp, filter_head_eq_find, find_filter]
      rcases hf : g.find? (fun r => bothCostsPos r && isPrimaryProvider r) with _ | v
      · exfalso
        apply hp
        apply List.head?_eq_none_iff.mp
        rw [filter_head_eq_find, find_filter, hf]
      · rfl


/-! ## Claim C9 — the HTML parser's per-row behaviour -/

theorem parse_error_of_one :
    ∀ (rows : List (List Cell)), (∃ r ∈ rows, r.length = 1) →
      parse_leaderboard_html rows = .error "IndexError"
  | [], h => absurd h (by simp)
  | cols :: rest, h => by
      rcases h with ⟨r, hm, hl⟩
      rcases List.mem_cons.mp hm with rfl | hm2
      · simp [parse_leaderboard_html, hl]
      · by_cases h0 : cols.length = 0
        · simp only [parse_leaderboard_html, if_pos h0]
          exact parse_error_of_one rest ⟨r, hm2, hl⟩
        · by_cases h1 : cols.length = 1
          · simp [parse_leaderboard_html, h0, h1]
          · simp only [parse_leaderboard_html, if_neg h0, if_neg h1]
            rw [parse_error_of_one rest ⟨r, hm2, hl⟩]
            rfl

theorem parse_ok_of_no_one :
    ∀ (rows : List (List Cell)), (∀ r ∈ rows, r.length ≠ 1) →
      parse_leaderboard_html rows =
        .ok ((rows.filter (fun r => 2 ≤ r.length)).map rowRecord)
  | [], _ => rfl
  | cols :: rest, h => by
      have hrest := parse_ok_of_no_one rest (fun r hr => h r (List.mem_cons_of_mem _ hr))
      have hcols := h cols (List.mem_cons_self _ _)
      by_cases h0 : cols.length = 0
      · have hnot : ¬ (2 ≤ cols.length) := by omega
        simp only [parse_leaderboard_html, if_pos h0, hrest, List.filter_cons]
        simp [hnot]
      · have h2 : 2 ≤ cols.length := by omega
        simp only [parse_leaderboard_html, if_neg h0, if_neg hcols, hrest,
          List.filter_cons]
        simp [h2, bind, Except.bind, pure, Except.pure]

/-- Claim C9: in the tbody loop, a row with zero `<td>` cells is silently
skipped; when no row has exactly one cell the parser succeeds and emits
exactly one output row per row with at least two cells; every emitted row has
exactly 10 fields, and every field whose cell index is at or beyond the row's
cell count is null; the parser fails with an uncaught `IndexError` exactly
when some row has exactly one `<td>` cell. -/
theorem parse_leaderboard_html_spec :
    (∀ rows : List (List Cell),
       (parse_leaderboard_html rows = .error "IndexError" ↔ ∃ r ∈ rows, r.length = 1)) ∧
    (∀ rows : List (List Cell), (∀ r ∈ rows, r.length ≠ 1) →
       parse_leaderboard_html rows =
         .ok ((rows.filter (fun r => 2 ≤ r.length)).map rowRecord)) ∧
    (∀ cols : List Cell, (rowRecord cols).length = 10) ∧
    (∀ cols : List Cell, ∀ j, 2 ≤ j → j ≤ 9 → cols.length ≤ j →
       (rowRecord cols).getD j none = none) := by
  refine ⟨?_, parse_ok_of_no_one, fun _ => rfl, ?_⟩
  · intro rows
    constructor
    · intro he
      by_contra hno
      push_neg at hno
      rw [parse_ok_of_no_one rows hno] at he
      exact absurd he (by simp)
    · exact parse_error_of_one rows
  · intro cols j hj2 hj9 hlen
    interval_cases j <;>
      simp [rowRecord, metricCell, orgCell, licenseCell,
        List.getElem?_eq_none_iff.mpr hlen]

/-- Witness for `parse_leaderboard_html_spec`: a zero-cell row is skipped, a
two-cell row yields one ten-field record with null trailing fields, and a
one-cell row aborts parsing. -/
theorem parse_leaderboard_html_spec_witness :
    parse_leaderboard_html [[], [cellA, cellA]] = .ok [rowRecord [cellA, cellA]] ∧
    (rowRecord [cellA, cellA]).length = 10 ∧
    (rowRecord [cellA, cellA]).getD 9 none = none ∧
    parse_leaderboard_html [[cellA]] = .error "IndexError" := by
  obtain ⟨h1, h2, h3, h4⟩ := parse_leaderboard_html_spec
  refine ⟨?_, h3 _, h4 [cellA, cellA] 9 (by decide) (by decide) (by decide), ?_⟩
  · rw [h2 [[], [cellA, cellA]] (by decide)]
    rfl
  · exact (h1 [[cellA]]).mpr ⟨[cellA], by simp, rfl⟩


/-! ## Claim C7 — `:free` shadowing in the fallback fetch -/

theorem upsert_mem_keys {α : Type} (k : String) (v : α) (l : List (String × α)) :
    k ∈ keys (upsert k v l) := by
  induction l with
  | nil => simp [upsert, keys]
  | cons p t ih =>
      by_cases h : p.1 = k
      · simp [upsert, h, keys]
      · simp only [upsert, if_neg h, keys, List.map_cons, List.mem_cons]
        exact Or.inr ih

theorem upsert_keys_mono {α : Type} (k : String) (v : α) {x : String}
    {l : List (String × α)} (h : x ∈ keys l) : x ∈ keys (upsert k v l) := by
  induction l with
  | nil => simp [keys] at h
  | cons p t ih =>
      rcases List.mem_cons.mp h with hx | hx
      · by_cases hk : p.1 = k
        · subst hx
          rw [hk]
          exact upsert_mem_keys k v (p :: t)
        · simp only [upsert, if_neg hk, keys, List.map_cons, List.mem_cons]
          exact Or.inl hx
      · by_cases hk : p.1 = k
        · simp only [upsert, if_pos hk, keys, List.map_cons, List.mem_cons]
          exact Or.inr hx
        · simp only [upsert, if_neg hk, keys, List.map_cons, List.mem_cons]
          exact Or.inr (ih hx)

theorem addNoNs_keys_mono {md : ModelData} {midL : String}
    {acc : List (String × ModelData)} {x : String} (h : x ∈ keys acc) :
    x ∈ keys (addNoNs md midL acc) := by
  unfold addNoNs
  split_ifs
  · exact upsert_keys_mono _ _ h
  · exact h

theorem addSlug_keys_mono {md : ModelData} {midL : String}
    {acc : List (String × ModelData)} {x : String} (h : x ∈ keys acc) :
    x ∈ keys (addSlug md midL acc) := by
  unfold addSlug
  split_ifs
  · exact upsert_keys_mono _ _ (upsert_keys_mono _ _ h)
  · exact upsert_keys_mono _ _ h
  · exact h

theorem addHf_keys_mono {md : ModelData} {midL : String}
    {acc : List (String × ModelData)} {x : String} (h : x ∈ keys acc) :
    x ∈ keys (addHf md midL acc) := by
  unfold addHf
  split_ifs
  · exact upsert_keys_mono _ _ h
  · exact h

theorem addEntry_keys_mono (allM : List (String × ORModel))
    {acc : List (String × ModelData)} (kv : String × ORModel) {x : String}
    (h : x ∈ keys acc) : x ∈ keys (addEntry allM acc kv) := by
  unfold addEntry
  split_ifs
  · exact h
  · exact addHf_keys_mono (addSlug_keys_mono (addNoNs_keys_mono
      (upsert_keys_mono _ _ h)))
  · exact h

theorem fold_keys_mono (allM : List (String × ORModel)) {x : String} :
    ∀ (l : List (String × ORModel)) (acc : List (String × ModelData)),
      x ∈ keys acc → x ∈ keys (l.foldl (addEntry allM) acc)
  | [], acc, h => h
  | kv :: t, acc, h =>
      fold_keys_mono allM t (addEntry allM acc kv) (addEntry_keys_mono allM kv h)

theorem addEntry_skip (allM : List (String × ORModel))
    (acc : List (String × ModelData)) (kv : String × ORModel)
    (h : pyContains kv.1 freeTag ∧ baseId kv.1 ∈ keys allM) :
    addEntry allM acc kv = acc := by
  unfold addEntry
  rw [if_pos h]

theorem addEntry_self_mem (allM : List (String × ORModel))
    (acc : List (String × ModelData)) (kv : String × ORModel)
    (hskip : ¬ (pyContains kv.1 freeTag ∧ baseId kv.1 ∈ keys allM))
    (hp : kv.2.promptCost.isSome ∨ kv.2.completionCost.isSome) :
    pyLower kv.1 ∈ keys (addEntry allM acc kv) := by
  unfold addEntry
  rw [if_neg hskip, if_pos hp]
  exact addHf_keys_mono (addSlug_keys_mono (addNoNs_keys_mono
    (upsert_mem_keys _ _ _)))

theorem foldl_filter_skip {α β : Type} [DecidableEq α] (f : β → α → β) (x : α)
    (hx : ∀ acc, f acc x = acc) :
    ∀ (l : List α) (b : β),
      List.foldl f b l = List.foldl f b (l.filter (fun y => y ≠ x))
  | [], _ => rfl
  | y :: t, b => by
      by_cases hy : y = x
      · subst hy
        rw [List.foldl_cons, hx b, List.filter_cons, if_neg (by simp)]
        exact foldl_filter_skip f y hx t b
      · rw [List.foldl_cons, List.filter_cons, if_pos (by simp [hy]), List.foldl_cons]
        exact foldl_filter_skip f x hx t (f b y)

/-- Claim C7 as stated is false: a `:free` entry with no pricing fields is
excluded from the returned mapping even though no paid sibling id exists in
the payload (line 197 gates every insertion on a present prompt or completion
price). -/
theorem openrouter_free_orphan_dropped :
    pyContains "x/a:free" freeTag = true ∧
    baseId "x/a:free" ∉ keys (all_models [freeOrphanEntry]) ∧
    fetch_openrouter_pricing [freeOrphanEntry] = [] ∧
    pyLower "x/a:free" ∉ keys (fetch_openrouter_pricing [freeOrphanEntry]) := by
  exact ⟨by decide, by decide, by decide, by decide⟩

/-- Claim C7, amended: a `:free` entry is skipped exactly when its base id
(the id with every `:free` removed) is a key of `all_models` — the completed
first-pass mapping, which holds every payload entry with a non-empty id,
priced or not.  When skipped, the returned mapping equals the fold with that
entry dropped from the iteration, so a sibling's values are never overwritten
by the free variant's.  When the base id is absent from `all_models`, a
`:free` entry carrying at least one pricing value is kept: its lowercased id
is a key of the returned mapping.  (An entry with neither a prompt nor a
completion price is excluded by the line-197 insertion gate regardless of the
`:free` logic — that gate, not the skip test, is what drops the unpriced
orphan of the counterexample above.) -/
theorem openrouter_free_shadowing (data : List ORModel) (mid : String) (m : ORModel)
    (hmem : (mid, m) ∈ all_models data)
    (hfree : pyContains mid freeTag = true) :
    (baseId mid ∈ keys (all_models data) →
      fetch_openrouter_pricing data =
        ((all_models data).filter (fun kv => kv ≠ (mid, m))).foldl
          (addEntry (all_models data)) []) ∧
    (baseId mid ∉ keys (all_models data) →
      (m.promptCost.isSome ∨ m.completionCost.isSome) →
      pyLower mid ∈ keys (fetch_openrouter_pricing data)) := by
  constructor
  · intro hbase
    unfold fetch_openrouter_pricing
    exact foldl_filter_skip (addEntry (all_models data)) (mid, m)
      (fun acc => addEntry_skip _ _ _ ⟨hfree, hbase⟩) (all_models data) []
  · intro hbase hp
    obtain ⟨l1, l2, hsplit⟩ := List.append_of_mem hmem
    unfold fetch_openrouter_pricing
    conv_lhs => rw [hsplit]
    rw [List.foldl_append, List.foldl_cons]
    apply fold_keys_mono
    apply addEntry_self_mem
    · rintro ⟨-, hb⟩
      rw [← hsplit] at hb
      exact hbase hb
    · exact hp

/-- Witness for `openrouter_free_shadowing`: with a paid `"x/a"` present the
`"x/a:free"` entry is dropped from the iteration; alone, `"y/b:free"` is kept
under its lowercased id. -/
theorem openrouter_free_shadowing_witness :
    (fetch_openrouter_pricing [paidDemoEntry, freeDemoEntry] =
      ((all_models [paidDemoEntry, freeDemoEntry]).filter
          (fun kv => kv ≠ ("x/a:free", freeDemoEntry))).foldl
        (addEntry (all_models [paidDemoEntry, freeDemoEntry])) []) ∧
    pyLower "y/b:free" ∈ keys (fetch_openrouter_pricing [freeSoloEntry]) := by
  constructor
  · exact (openrouter_free_shadowing [paidDemoEntry, freeDemoEntry] "x/a:free"
      freeDemoEntry (by decide) (by decide)).1 (by decide)
  · exact (openrouter_free_shadowing [freeSoloEntry] "y/b:free" freeSoloEntry
      (by decide) (by decide)).2 (by decide) (by decide)


/-! ## Sort and merge infrastructure -/

theorem scoreKeyLEb_total (a b : Option ℚ) :
    scoreKeyLEb a b = true ∨ scoreKeyLEb b a = true := by
  cases a <;> cases b <;> simp [scoreKeyLEb]
  exact le_total _ _

theorem scoreKeyLEb_trans {a b c : Option ℚ} (h1 : scoreKeyLEb a b = true)
    (h2 : scoreKeyLEb b c = true) : scoreKeyLEb a c = true := by
  cases a <;> cases b <;> cases c <;> simp_all [scoreKeyLEb] <;> linarith

theorem insertSorted_perm (a : ScoredRow) : ∀ l, (insertSorted a l).Perm (a :: l)
  | [] => .refl _
  | b :: t => by
      unfold insertSorted
      split_ifs with h
      · exact .refl _
      · exact ((insertSorted_perm a t).cons b).trans (List.Perm.swap a b t)

theorem insertSorted_sorted (a : ScoredRow) :
    ∀ {l}, SortedByScore l → SortedByScore (insertSorted a l)
  | [], _ => by simp [insertSorted, SortedByScore]
  | b :: t, h => by
      unfold insertSorted
      obtain ⟨hb, ht⟩ := List.pairwise_cons.mp h
      split_ifs with hab
      · refine List.pairwise_cons.mpr ⟨?_, h⟩
        intro x hx
        rcases List.mem_cons.mp hx with rfl | hxt
        · exact hab
        · exact scoreKeyLEb_trans hab (hb x hxt)
      · have hba : scoreKeyLEb b.score a.score = true :=
          (scoreKeyLEb_total a.score b.score).resolve_left hab
        refine List.pairwise_cons.mpr ⟨?_, insertSorted_sorted a ht⟩
        intro x hx
        rcases List.mem_cons.mp ((insertSorted_perm a t).mem_iff.mp hx) with rfl | hxt
        · exact hba
        · exact hb x hxt

theorem insertionSortScore_SortOK : SortOK insertionSortScore := by
  intro l
  induction l with
  | nil => exact ⟨.refl _, List.Pairwise.nil⟩
  | cons a t ih =>
      exact ⟨(insertSorted_perm a _).trans (ih.1.cons a), insertSorted_sorted a ih.2⟩

theorem revTieSort_SortOK : SortOK revTieSort := by
  intro l
  obtain ⟨hp, hs⟩ := insertionSortScore_SortOK l.reverse
  exact ⟨hp.trans (List.reverse_perm l), hs⟩

theorem uniqueKeysGo_nodup :
    ∀ (t seen : List String),
      (uniqueKeysGo seen t).Nodup ∧ ∀ x ∈ uniqueKeysGo seen t, x ∉ seen
  | [], _ => ⟨List.Pairwise.nil, by simp [uniqueKeysGo]⟩
  | k :: t, seen => by
      by_cases hk : k ∈ seen
      · simpa [uniqueKeysGo, hk] using uniqueKeysGo_nodup t seen
      · have ih := uniqueKeysGo_nodup t (k :: seen)
        simp only [uniqueKeysGo, if_neg hk]
        constructor
        · rw [List.nodup_cons]
          exact ⟨fun hmem => (ih.2 k hmem) (List.mem_cons_self _ _), ih.1⟩
        · intro x hx
          rcases List.mem_cons.mp hx with rfl | hxt
          · exact hk
          · exact fun hxs => (ih.2 x hxt) (List.mem_cons_of_mem _ hxs)

theorem select_best_mem {g : List CatRow} {r : CatRow}
    (h : select_best_pricing_row g = some r) : r ∈ g := by
  unfold select_best_pricing_row at h
  split_ifs at h <;>
    first
      | exact List.mem_of_mem_head? h
      | exact (List.mem_filter.mp (List.mem_of_mem_head? h)).1
      | exact (List.mem_filter.mp
          (List.mem_filter.mp (List.mem_of_mem_head? h)).1).1

theorem select_best_model (k : String) {catalog : List CatRow} {r : CatRow}
    (h : select_best_pricing_row (catalog.filter (fun c => c.model = k)) = some r) :
    r.model = k := by
  have hm := select_best_mem h
  simpa using List.of_mem_filter hm

theorem model_df_best_nodup (catalog : List CatRow) :
    ((model_df_best catalog).map CatRow.model).Nodup := by
  unfold model_df_best
  have hsub : ∀ ks : List String,
      ((ks.filterMap (fun k =>
          select_best_pricing_row (catalog.filter (fun r => r.model = k)))).map
        CatRow.model).Sublist ks := by
    intro ks
    induction ks with
    | nil => simp
    | cons k t ih =>
        rw [List.filterMap_cons]
        cases hf : select_best_pricing_row (catalog.filter (fun r => r.model = k)) with
        | none => exact ih.trans (List.sublist_cons_self k t)
        | some r =>
            rw [List.map_cons, select_best_model k hf]
            exact ih.cons₂ k
  exact List.Nodup.sublist (hsub _) (uniqueKeysGo_nodup _ []).1

theorem nodup_filter_eq_find {best : List CatRow}
    (hnd : (best.map CatRow.model).Nodup) (k : String) :
    best.filter (fun c => c.model = k) = (best.find? (fun c => c.model = k)).toList := by
  induction best with
  | nil => rfl
  | cons c t ih =>
      rw [List.map_cons, List.nodup_cons] at hnd
      by_cases hc : c.model = k
      · have hft : t.filter (fun c2 => c2.model = k) = [] := by
          rw [List.filter_eq_nil]
          intro x hx
          simp only [decide_eq_true_eq]
          intro hxk
          exact hnd.1 (hc ▸ hxk ▸ List.mem_map_of_mem CatRow.model hx)
        simp [List.filter_cons, List.find?_cons, hc, hft]
      · simp [List.filter_cons, List.find?_cons, hc, ih hnd.2]

theorem mergeLeftGeneral_eq (rows : List MatchedRow) {best : List CatRow}
    (hnd : (best.map CatRow.model).Nodup) :
    mergeLeftGeneral rows best = rows.map (fun r => (r, lookupPricing best r.matched)) := by
  induction rows with
  | nil => rfl
  | cons r t ih =>
      show (match r.matched with
            | none => [(r, (none : Option CatRow))]
            | some k =>
                match best.filter (fun c => c.model = k) with
                | [] => [(r, (none : Option CatRow))]
                | ms => ms.map (fun c => (r, some c))) ++ mergeLeftGeneral t best = _
      rw [ih]
      cases hm : r.matched with
      | none => simp [lookupPricing, hm]
      | some k =>
          dsimp only
          rw [nodup_filter_eq_find hnd k]
          cases hf : best.find? (fun c => c.model = k) with
          | none => simp [lookupPricing, hm, hf, Option.toList]
          | some c => simp [lookupPricing, hm, hf, Option.toList]

theorem pipelineOut_eq (sortF : List ScoredRow → List ScoredRow)
    (matchF : Option String → Option String) (rows : List LBRow)
    (catalog : List CatRow) :
    pipelineOut sortF matchF rows catalog =
      (assignRanks (sortF (scoredOf rows))).map (fun rr =>
        toOutRow (toMatched matchF rr,
          lookupPricing (model_df_best catalog) (toMatched matchF rr).matched)) := by
  unfold pipelineOut
  rw [mergeLeftGeneral_eq _ (model_df_best_nodup catalog), List.map_map, List.map_map]
  rfl

theorem assignRanks_map_fst {β : Type} (l : List ScoredRow) (f : ScoredRow → β) :
    (assignRanks l).map (fun rr => f ⟨rr.row, rr.score⟩) = l.map f := by
  unfold assignRanks
  rw [List.map_map]
  have h1 : ((fun rr : RankedRow => f ⟨rr.row, rr.score⟩) ∘
      (fun p : ScoredRow × ℕ => (⟨p.1.row, p.1.score, p.2⟩ : RankedRow)))
        = (f ∘ Prod.fst) := rfl
  rw [h1, ← List.map_map, List.map_fst_zip _ _ (by simp [List.length_range'])]

theorem assignRanks_map_rank (l : List ScoredRow) :
    (assignRanks l).map RankedRow.rank = List.range' 1 l.length := by
  unfold assignRanks
  rw [List.map_map]
  have h1 : (RankedRow.rank ∘
      (fun p : ScoredRow × ℕ => (⟨p.1.row, p.1.score, p.2⟩ : RankedRow)))
        = Prod.snd := rfl
  rw [h1, List.map_snd_zip _ _ (by simp [List.length_range'])]

/-! ## Claim C1 — the left join keeps exactly one row per leaderboard row -/

/-- Claim C1: the deduplicated pricing table has at most one row per model
key; the left merge therefore pairs every (matched) row with exactly one
lookup result, so the final table has exactly as many rows as the input for
every input size; and rows with a null `matched_model` are kept, with all
pricing-derived fields null/blank. -/
theorem merged_row_count (sortF : List ScoredRow → List ScoredRow)
    (hs : SortOK sortF) (matchF : Option String → Option String)
    (rows : List LBRow) (catalog : List CatRow) :
    (pipelineOut sortF matchF rows catalog).length = rows.length ∧
    ((model_df_best catalog).map CatRow.model).Nodup ∧
    (∀ ms : List MatchedRow,
      mergeLeftGeneral ms (model_df_best catalog)
        = ms.map (fun r => (r, lookupPricing (model_df_best catalog) r.matched))) ∧
    (∀ o ∈ pipelineOut sortF matchF rows catalog, o.matched = none →
      o.provider = none ∧ o.inputCostCell = "" ∧ o.outputCostCell = "" ∧
      o.reasoningCostRaw = none ∧ o.inputBatchCell = "" ∧ o.outputBatchCell = "") := by
  have hlen : (sortF (scoredOf rows)).length = rows.length := by
    have := (hs (scoredOf rows)).1.length_eq
    simpa [scoredOf] using this
  refine ⟨?_, model_df_best_nodup catalog,
    fun ms => mergeLeftGeneral_eq ms (model_df_best_nodup catalog), ?_⟩
  · rw [pipelineOut_eq]
    simp [assignRanks, List.length_zip, List.length_range', hlen]
  · intro o ho hnone
    rw [pipelineOut_eq] at ho
    obtain ⟨rr, hrr, rfl⟩ := List.mem_map.mp ho
    have hm : (toMatched matchF rr).matched = none := hnone
    rw [hm]
    exact ⟨rfl, rfl, rfl, rfl, rfl, rfl⟩

/-- Witness for `merged_row_count` on two rows and a one-row catalog. -/
theorem merged_row_count_witness :
    (pipelineOut insertionSortScore (fun _ => none) [lbRowA, lbRowC]
      [anthropicRow]).length = 2 :=
  ((merged_row_count insertionSortScore insertionSortScore_SortOK (fun _ => none)
    [lbRowA, lbRowC] [anthropicRow]).1).trans (by decide)

/-! ## Claim C5 — the rank column -/

/-- Claim C5 as stated is false in its stability clause: the code sorts with
`sort_values`' default quicksort, whose tie order is unspecified —
`sortSpec` is all it guarantees.  The reversing-ties sort `revTieSort`
satisfies that contract (`revTieSort_SortOK`), yet on two rows with equal
scores it emits them in the reverse of fetch order, while the stable
insertion sort keeps fetch order: the code's contract does not determine the
claimed tie order. -/
theorem rank_tie_order_counterexample :
    sortSpec (scoredOf [lbRowA, lbRowB]) (scoredOf [lbRowB, lbRowA]) ∧
    SortOK revTieSort ∧
    (pipelineOut revTieSort (fun _ => none) [lbRowA, lbRowB] []).map OutRow.rank_icon
      = [some "B", some "A"] ∧
    (pipelineOut insertionSortScore (fun _ => none) [lbRowA, lbRowB] []).map
        OutRow.rank_icon = [some "A", some "B"] ∧
    lbRowA ≠ lbRowB ∧
    pyToNumeric lbRowA.arena_elo = pyToNumeric lbRowB.arena_elo := by
  refine ⟨?_, revTieSort_SortOK, by decide, by decide, by decide, by decide⟩
  unfold sortSpec SortedByScore
  exact ⟨by decide, by decide⟩

/-- Claim C5, amended: the rank column is the strictly increasing sequence
1, 2, …, N, assigned after ordering by descending numeric score with nulls
last; the relative order of rows with equal scores is not specified by the
sort the code uses (pandas quicksort default). -/
theorem rank_column_spec (sortF : List ScoredRow → List ScoredRow)
    (hs : SortOK sortF) (matchF : Option String → Option String)
    (rows : List LBRow) (catalog : List CatRow) :
    (pipelineOut sortF matchF rows catalog).map OutRow.rankUB
        = List.range' 1 rows.length ∧
    ((pipelineOut sortF matchF rows catalog).map OutRow.arenaScore).Pairwise
        (fun a b => scoreKeyLEb a b = true) := by
  have hlen : (sortF (scoredOf rows)).length = rows.length := by
    have := (hs (scoredOf rows)).1.length_eq
    simpa [scoredOf] using this
  constructor
  · rw [pipelineOut_eq, List.map_map]
    have h1 : (OutRow.rankUB ∘ (fun rr =>
        toOutRow (toMatched matchF rr,
          lookupPricing (model_df_best catalog) (toMatched matchF rr).matched)))
        = RankedRow.rank := rfl
    rw [h1, assignRanks_map_rank, hlen]
  · rw [pipelineOut_eq, List.map_map]
    have h1 : (OutRow.arenaScore ∘ (fun rr =>
        toOutRow (toMatched matchF rr,
          lookupPricing (model_df_best catalog) (toMatched matchF rr).matched)))
        = (fun rr : RankedRow => (fun s : ScoredRow => s.score) ⟨rr.row, rr.score⟩) := rfl
    rw [h1, assignRanks_map_fst]
    rw [List.pairwise_map]
    exact (hs (scoredOf rows)).2

/-- Witness for `rank_column_spec` with the stable insertion sort. -/
theorem rank_column_spec_witness :
    (pipelineOut insertionSortScore (fun _ => none) [lbRowA, lbRowC] []).map
        OutRow.rankUB = [1, 2] := by
  rw [(rank_column_spec insertionSortScore insertionSortScore_SortOK (fun _ => none)
    [lbRowA, lbRowC] []).1]
  decide


/-! ## Claim C8 — which fetched fields survive unchanged -/

/-- Claim C8 as stated is false: the pipeline rewrites the fetched model name
in place (`df["Model"] = df["Model"].map(clean)`, line 383) — a row fetched
as `"A (x)/B"` is written out as `"b"`.  (The `Arena Score` column is
likewise overwritten by its numeric coercion, line 139.) -/
theorem fetched_model_rewritten :
    (pipelineOut insertionSortScore (fun _ => none) [lbRowC] []).map OutRow.modelClean
      = [some "b"] ∧
    lbRowC.model = some "A (x)/B" ∧
    (some "b" : Option String) ≠ some "A (x)/B" ∧
    (pipelineOut insertionSortScore (fun _ => none) [lbRowC] []).map OutRow.arenaScore
      = [pyToNumeric (some "1300")] ∧
    lbRowC.arena_elo = some "1300" := by
  exact ⟨by decide, rfl, by decide, by decide, rfl⟩

/-- Claim C8, amended: all fetcher-produced fields except the model name and
the arena score — rank icon, the five other metric columns, organization and
license — are carried into the merged output unchanged, row by row; the
model name is normalised with `clean`, and the arena score is the coerced
numeric value; the pipeline only adds the match, rank and pricing columns. -/
theorem fetched_fields_preserved (sortF : List ScoredRow → List ScoredRow)
    (hs : SortOK sortF) (matchF : Option String → Option String)
    (rows : List LBRow) (catalog : List CatRow) :
    (pipelineOut sortF matchF rows catalog).map OutRow.rank_icon
        = (sortF (scoredOf rows)).map (fun s => s.row.rank_icon) ∧
    (pipelineOut sortF matchF rows catalog).map OutRow.coding
        = (sortF (scoredOf rows)).map (fun s => s.row.coding) ∧
    (pipelineOut sortF matchF rows catalog).map OutRow.vision
        = (sortF (scoredOf rows)).map (fun s => s.row.vision) ∧
    (pipelineOut sortF matchF rows catalog).map OutRow.aaii
        = (sortF (scoredOf rows)).map (fun s => s.row.aaii) ∧
    (pipelineOut sortF matchF rows catalog).map OutRow.mmlu_pro
        = (sortF (scoredOf rows)).map (fun s => s.row.mmlu_pro) ∧
    (pipelineOut sortF matchF rows catalog).map OutRow.arc_agi
        = (sortF (scoredOf rows)).map (fun s => s.row.arc_agi) ∧
    (pipelineOut sortF matchF rows catalog).map OutRow.organization
        = (sortF (scoredOf rows)).map (fun s => s.row.organisation) ∧
    (pipelineOut sortF matchF rows catalog).map OutRow.license
        = (sortF (scoredOf rows)).map (fun s => s.row.license) ∧
    (pipelineOut sortF matchF rows catalog).map OutRow.modelClean
        = (sortF (scoredOf rows)).map (fun s => s.row.model.map clean) ∧
    (pipelineOut sortF matchF rows catalog).map OutRow.arenaScore
        = (sortF (scoredOf rows)).map (fun s => s.score) ∧
    (sortF (scoredOf rows)).Perm (scoredOf rows) := by
  refine ⟨?_, ?_, ?_, ?_, ?_, ?_, ?_, ?_, ?_, ?_, (hs (scoredOf rows)).1⟩ <;>
    rw [pipelineOut_eq, List.map_map]
  · exact assignRanks_map_fst (sortF (scoredOf rows)) (fun s => s.row.rank_icon)
  · exact assignRanks_map_fst (sortF (scoredOf rows)) (fun s => s.row.coding)
  · exact assignRanks_map_fst (sortF (scoredOf rows)) (fun s => s.row.vision)
  · exact assignRanks_map_fst (sortF (scoredOf rows)) (fun s => s.row.aaii)
  · exact assignRanks_map_fst (sortF (scoredOf rows)) (fun s => s.row.mmlu_pro)
  · exact assignRanks_map_fst (sortF (scoredOf rows)) (fun s => s.row.arc_agi)
  · exact assignRanks_map_fst (sortF (scoredOf rows)) (fun s => s.row.organisation)
  · exact assignRanks_map_fst (sortF (scoredOf rows)) (fun s => s.row.license)
  · exact assignRanks_map_fst (sortF (scoredOf rows)) (fun s => s.row.model.map clean)
  · exact assignRanks_map_fst (sortF (scoredOf rows)) (fun s => s.score)

/-- Witness for `fetched_fields_preserved`: the organisation field survives. -/
theorem fetched_fields_preserved_witness :
    (pipelineOut insertionSortScore (fun _ => none) [lbRowC] []).map
        OutRow.organization = [some "Org"] := by
  rw [(fetched_fields_preserved insertionSortScore insertionSortScore_SortOK
    (fun _ => none) [lbRowC] []).2.2.2.2.2.2.1]
  decide

/-! ## Claim C2 — cost conversion and formatting -/

/-- Claim C2 holds for four of the five recognized cost fields, but fails for
the reasoning field: the conversion loop (lines 530-557) renames it to
`output_cost_per_reasoning_per_million_tokens ($)`, a name that does NOT
contain the substring `cost_per_million_tokens`, so the formatting loop
(lines 569-599) skips it — its values stay numeric floats instead of the
claimed fixed two-decimal strings.  For the four matching fields a present
cost `c` is emitted as the two-decimal formatting of `c * 1,000,000` and an
absent cost as the empty string (neither "0.00" nor "nan"/"NaN"); the
reasoning field keeps the raw converted value `c * 1,000,000` (or stays
absent). -/
theorem cost_cell_formatting (p : MatchedRow × Option CatRow) :
    (∀ c : ℚ, p.2.bind CatRow.input_cost_per_token = some c →
        (toOutRow p).inputCostCell = fmt2 (c * 1000000)) ∧
    (p.2.bind CatRow.input_cost_per_token = none → (toOutRow p).inputCostCell = "") ∧
    (∀ c : ℚ, p.2.bind CatRow.output_cost_per_token = some c →
        (toOutRow p).outputCostCell = fmt2 (c * 1000000)) ∧
    (p.2.bind CatRow.output_cost_per_token = none → (toOutRow p).outputCostCell = "") ∧
    (∀ c : ℚ, p.2.bind CatRow.input_cost_per_token_batches = some c →
        (toOutRow p).inputBatchCell = fmt2 (c * 1000000)) ∧
    (p.2.bind CatRow.input_cost_per_token_batches = none →
        (toOutRow p).inputBatchCell = "") ∧
    (∀ c : ℚ, p.2.bind CatRow.output_cost_per_token_batches = some c →
        (toOutRow p).outputBatchCell = fmt2 (c * 1000000)) ∧
    (p.2.bind CatRow.output_cost_per_token_batches = none →
        (toOutRow p).outputBatchCell = "") ∧
    (isCostCol "input_cost_per_million_tokens ($)" = true ∧
     isCostCol "output_cost_per_million_tokens ($)" = true ∧
     isCostCol "input_cost_per_million_tokens_batches ($)" = true ∧
     isCostCol "output_cost_per_million_tokens_batches ($)" = true ∧
     isCostCol "output_cost_per_reasoning_per_million_tokens ($)" = false) ∧
    (∀ c : ℚ, p.2.bind CatRow.output_cost_per_reasoning_token = some c →
        (toOutRow p).reasoningCostRaw = some (c * 1000000)) ∧
    (p.2.bind CatRow.output_cost_per_reasoning_token = none →
        (toOutRow p).reasoningCostRaw = none) ∧
    ("" : String) ≠ "0.00" ∧ ("" : String) ≠ "nan" ∧ ("" : String) ≠ "NaN" := by
  refine ⟨?_, ?_, ?_, ?_, ?_, ?_, ?_, ?_, by decide,
    ?_, ?_, by decide, by decide, by decide⟩ <;>
    first
      | (intro c hc
         show costCell _ = _
         rw [hc]
         rfl)
      | (intro c hc
         show convertCost _ = _
         rw [hc]
         rfl)
      | (intro hc
         show costCell _ = _
         rw [hc]
         rfl)
      | (intro hc
         show convertCost _ = _
         rw [hc]
         rfl)

/-- Witness for `cost_cell_formatting`: a matched per-token input cost of
15/1,000,000 is emitted as "15.00"; an unmatched row's cell is empty; a
reasoning cost stays a raw number instead of a formatted string. -/
theorem cost_cell_formatting_witness :
    (toOutRow (matchedDemoRow, some costDemoRow)).inputCostCell = "15.00" ∧
    (toOutRow (matchedDemoRow, none)).inputCostCell = "" ∧
    (toOutRow (matchedDemoRow, some reasoningDemoRow)).reasoningCostRaw
      = some ((3 : ℚ) * 1000000) := by
  refine ⟨?_, ?_, ?_⟩
  · rw [(cost_cell_formatting (matchedDemoRow, some costDemoRow)).1 (15/1000000) rfl]
    rw [fmt2_of_nonneg (n := 1500) (by norm_num)
      (roundHalfEven_of_lt (f := 1500) (by norm_num) (by norm_num))]
    decide
  · exact (cost_cell_formatting (matchedDemoRow, none)).2.1 rfl
  · exact (cost_cell_formatting
      (matchedDemoRow, some reasoningDemoRow)).2.2.2.2.2.2.2.2.2.1 3 rfl

/-! ## Claim C4 — which fetch failures are fatal -/

/-- Claim C4 as stated is false: a failure of the fallback (OpenRouter)
pricing fetch is caught inside `fetch_openrouter_pricing` (lines 243-245,
`except Exception: return {}`) — with both fallback calls failing, the run
still succeeds and writes both artifacts. -/
theorem fallback_fetch_failure_not_fatal :
    runScript insertionSortScore (fun _ => none) (.ok []) (.ok [])
        (.error "timeout") (.error "timeout") = .ok ([], []) := rfl

/-- Claim C4, amended: a fetch failure of the leaderboard source or of the
primary pricing source propagates as an uncaught error and no output is
produced; a failure of the fallback pricing source is caught and contributes
an empty mapping, and the run continues to produce both artifacts. -/
theorem fetch_failures (sortF : List ScoredRow → List ScoredRow)
    (matchF : Option String → Option String) :
    (∀ (e : String) priR fb1 fb2,
        runScript sortF matchF (.error e) priR fb1 fb2 = .error e) ∧
    (∀ (e : String) (cells : List (List Cell)) (parsed : List (List (Option String)))
        fb1 fb2,
        parse_leaderboard_html cells = .ok parsed →
        runScript sortF matchF (.ok cells) (.error e) fb1 fb2 = .error e) ∧
    (∀ (cells : List (List Cell)) (parsed : List (List (Option String)))
        (pri : List (String × CatVal)) (e1 e2 : String),
        parse_leaderboard_html cells = .ok parsed →
        runScript sortF matchF (.ok cells) (.ok pri) (.error e1) (.error e2)
          = .ok (pipelineOut sortF matchF (parsed.map toLBRow)
                   (toCatalog (mergeInfo (mergeInfo pri []) [])),
                 (pipelineOut sortF matchF (parsed.map toLBRow)
                   (toCatalog (mergeInfo (mergeInfo pri []) []))).take 100)) := by
  refine ⟨fun e priR fb1 fb2 => rfl, ?_, ?_⟩
  · intro e cells parsed fb1 fb2 hp
    unfold runScript
    simp [hp, bind, Except.bind]
  · intro cells parsed pri e1 e2 hp
    unfold runScript
    simp [hp, bind, Except.bind, pure, Except.pure, safeOR]

/-- Witness for `fetch_failures` at concrete arguments. -/
theorem fetch_failures_witness :
    runScript insertionSortScore (fun _ => none) (.error "http 500") (.ok [])
        (.ok []) (.ok []) = .error "http 500" ∧
    runScript insertionSortScore (fun _ => none) (.ok []) (.error "http 500")
        (.ok []) (.ok []) = .error "http 500" ∧
    runScript insertionSortScore (fun _ => none) (.ok []) (.ok [])
        (.error "t1") (.error "t2") = .ok ([], []) := by
  have h := fetch_failures insertionSortScore (fun _ => none)
  refine ⟨h.1 "http 500" (.ok []) (.ok []) (.ok []),
    h.2.1 "http 500" [] [] (.ok []) (.ok []) rfl, ?_⟩
  rw [h.2.2 [] [] [] "t1" "t2" rfl]
  rfl


/-! ## Claim C10 — preview vs CSV column order -/

-- Validation of the column model on a typical catalog column set.
example :
    convertCols (mergedCols ["input_cost_per_token", "output_cost_per_token",
      "litellm_provider", "mode"]) =
    leadCols ++ ["model", "litellm_provider", "mode",
      "input_cost_per_million_tokens ($)", "output_cost_per_million_tokens ($)"] := by
  decide

theorem foldl_keeps_pre (ps : List (String × String)) :
    ∀ (base rest : List String), (∀ p ∈ ps, p.1 ∉ base) →
      ∃ rest2, ps.foldl convertColsStep (base ++ rest) = base ++ rest2 := by
  induction ps with
  | nil => exact fun base rest _ => ⟨rest, rfl⟩
  | cons p ps ih =>
      intro base rest hps
      have hp1 : p.1 ∉ base := hps p (List.mem_cons_self _ _)
      have hps2 : ∀ q ∈ ps, q.1 ∉ base := fun q hq => hps q (List.mem_cons_of_mem _ hq)
      rw [List.foldl_cons]
      unfold convertColsStep
      split_ifs with h1 h2
      · rw [List.erase_append_right _ hp1]
        exact ih base _ hps2
      · rw [List.append_assoc, List.erase_append_right _ hp1]
        exact ih base _ hps2
      · exact ih base rest hps2

theorem foldl_cost_split (ps : List (String × String)) :
    ∀ (base added : List String), (∀ c ∈ base, isCostCol c = false) →
      ∃ b2 a2, ps.foldl convertColsStep (base ++ added) = b2 ++ a2 ∧
        (∀ c ∈ b2, isCostCol c = false) ∧ b2.Sublist base ∧
        (∀ c ∈ a2, c ∈ added ∨ c ∈ ps.map Prod.snd) := by
  induction ps with
  | nil =>
      exact fun base added hb =>
        ⟨base, added, rfl, hb, List.Sublist.refl base, fun c hc => Or.inl hc⟩
  | cons p ps ih =>
      intro base added hb
      rw [List.foldl_cons]
      unfold convertColsStep
      split_ifs with h1 h2
      · by_cases hmem : p.1 ∈ base
        · rw [List.erase_append_left _ hmem]
          obtain ⟨b2, a2, heq, hb2, hsub, ha2⟩ :=
            ih (base.erase p.1) added (fun c hc => hb c (List.mem_of_mem_erase hc))
          exact ⟨b2, a2, heq, hb2, hsub.trans (List.erase_sublist _ _),
            fun c hc => (ha2 c hc).imp_right (fun h => List.mem_cons_of_mem _ h)⟩
        · rw [List.erase_append_right _ hmem]
          obtain ⟨b2, a2, heq, hb2, hsub, ha2⟩ := ih base (added.erase p.1) hb
          exact ⟨b2, a2, heq, hb2, hsub,
            fun c hc => (ha2 c hc).imp (fun h => List.mem_of_mem_erase h)
              (fun h => List.mem_cons_of_mem _ h)⟩
      · by_cases hmem : p.1 ∈ base
        · rw [List.append_assoc, List.erase_append_left _ hmem]
          obtain ⟨b2, a2, heq, hb2, hsub, ha2⟩ :=
            ih (base.erase p.1) (added ++ [p.2])
              (fun c hc => hb c (List.mem_of_mem_erase hc))
          refine ⟨b2, a2, heq, hb2, hsub.trans (List.erase_sublist _ _), ?_⟩
          intro c hc
          rcases ha2 c hc with h | h
          · rcases List.mem_append.mp h with h | h
            · exact Or.inl h
            · exact Or.inr (by simp [List.mem_singleton.mp h])
          · exact Or.inr (List.mem_cons_of_mem _ h)
        · rw [List.append_assoc, List.erase_append_right _ hmem]
          obtain ⟨b2, a2, heq, hb2, hsub, ha2⟩ :=
            ih base ((added ++ [p.2]).erase p.1) hb
          refine ⟨b2, a2, heq, hb2, hsub, ?_⟩
          intro c hc
          rcases ha2 c hc with h | h
          · rcases List.mem_append.mp (List.mem_of_mem_erase h) with h | h
            · exact Or.inl h
            · exact Or.inr (by simp [List.mem_singleton.mp h])
          · exact Or.inr (List.mem_cons_of_mem _ h)
      · obtain ⟨b2, a2, heq, hb2, hsub, ha2⟩ := ih base added hb
        exact ⟨b2, a2, heq, hb2, hsub,
          fun c hc => (ha2 c hc).imp_right (fun h => List.mem_cons_of_mem _ h)⟩

-- With all five cost fields present, the converted reasoning column is
-- appended between the other converted columns; its name does not contain
-- the `cost_per_million_tokens` filter substring.
example :
    convertCols (mergedCols fullCatCols) =
    leadCols ++ ["model", "litellm_provider", "mode",
      "input_cost_per_million_tokens ($)", "output_cost_per_million_tokens ($)",
      "output_cost_per_reasoning_per_million_tokens ($)",
      "input_cost_per_million_tokens_batches ($)",
      "output_cost_per_million_tokens_batches ($)"] := by decide

/-- Counterexample to the Claim C10 wording that the cost columns appear at
THE END of the preview: with all five per-token cost fields present, the
converted reasoning column `output_cost_per_reasoning_per_million_tokens ($)`
is appended between the converted cost columns but is not itself a cost
column under the code's `cost_per_million_tokens` substring filter
(lines 569 and 607), so the cost columns do not form a terminal block of the
preview's column order. -/
theorem preview_cost_cols_not_terminal :
    ((convertCols (mergedCols fullCatCols)).filter isCostCol).isSuffixOf
        (convertCols (mergedCols fullCatCols)) = false ∧
    "output_cost_per_reasoning_per_million_tokens ($)"
        ∈ convertCols (mergedCols fullCatCols) ∧
    isCostCol "output_cost_per_reasoning_per_million_tokens ($)" = false ∧
    (convertCols (mergedCols fullCatCols)).filter isCostCol ≠ [] := by
  decide

/-- Claim C10, amended: the Markdown preview is rendered from `merged` before
the column reorder, the CSV from the reordered copy.  When at least one cost
column exists the two column orders differ.  The preview's column list splits
as `pre ++ tl` where `pre` is a subsequence of the original merged columns
(so it holds no cost column) and every element of `tl` is one of the five
converted column names the conversion loop appends — so every cost column
comes after all surviving original columns, though not necessarily as a
contiguous terminal block, since the converted reasoning column sits among
the appended columns without matching the cost filter.  The CSV puts the
cost columns directly after the five identity columns, then the remaining
columns in arrival order. -/
theorem preview_vs_csv_order (catCols : List String)
    (hnc : ∀ c ∈ mergedCols catCols, isCostCol c = false)
    (hcost : (convertCols (mergedCols catCols)).filter isCostCol ≠ []) :
    previewColumnOrder (convertCols (mergedCols catCols))
        ≠ csvColumnOrder (convertCols (mergedCols catCols)) ∧
    (∃ pre tl, convertCols (mergedCols catCols) = pre ++ tl ∧
        pre.Sublist (mergedCols catCols) ∧
        pre.filter isCostCol = [] ∧
        (∀ c ∈ tl, c ∈ costConvertPairs.map Prod.snd) ∧
        (convertCols (mergedCols catCols)).filter isCostCol
          = tl.filter isCostCol) ∧
    csvColumnOrder (convertCols (mergedCols catCols))
      = essential_cols ++ (convertCols (mergedCols catCols)).filter isCostCol ++
        (((convertCols (mergedCols catCols)).filter (fun c => ¬ isCostCol c)).filter
          (fun c => c ∉ essential_cols)) := by
  obtain ⟨b2, a2, heq, hb2, hsub, ha2⟩ :=
    foldl_cost_split costConvertPairs (mergedCols catCols) [] hnc
  rw [List.append_nil] at heq
  have hconv : convertCols (mergedCols catCols) = b2 ++ a2 := heq
  have hb2nil : b2.filter isCostCol = [] := List.filter_eq_nil.mpr (by simpa using hb2)
  have hfilter : (convertCols (mergedCols catCols)).filter isCostCol
      = a2.filter isCostCol := by
    rw [hconv, List.filter_append, hb2nil]
    rfl
  refine ⟨?_, ⟨b2, a2, hconv, hsub, hb2nil,
    fun c hc => (ha2 c hc).resolve_left (List.not_mem_nil c), hfilter⟩,
    by simp only [csvColumnOrder]⟩
  have hpre4 : ∀ p ∈ costConvertPairs,
      p.1 ∉ (["rank_icon", "Model", "Arena Score", "coding"] : List String) := by
    decide
  obtain ⟨rest2, hkeep⟩ :=
    foldl_keeps_pre costConvertPairs ["rank_icon", "Model", "Arena Score", "coding"]
      (["vision", "aaii", "mmlu_pro", "arc_agi", "Organization", "License",
        "Rank* (UB)", "matched_model"] ++ "model" :: catCols) hpre4
  have hconv2 : convertCols (mergedCols catCols)
      = ["rank_icon", "Model", "Arena Score", "coding"] ++ rest2 := hkeep
  intro hcontra
  have h1 : (previewColumnOrder (convertCols (mergedCols catCols))).getD 3 ""
      = "coding" := by
    simp only [previewColumnOrder]
    rw [hconv2]
    rfl
  have h2 : (csvColumnOrder (convertCols (mergedCols catCols))).getD 3 ""
      = "Organization" := by
    simp only [csvColumnOrder, essential_cols]
    rfl
  rw [hcontra, h2] at h1
  exact absurd h1 (by decide)

/-- Witness for `preview_vs_csv_order` on a typical catalog column set. -/
theorem preview_vs_csv_order_witness :
    previewColumnOrder (convertCols (mergedCols ["input_cost_per_token",
        "output_cost_per_token", "litellm_provider", "mode"]))
      ≠ csvColumnOrder (convertCols (mergedCols ["input_cost_per_token",
        "output_cost_per_token", "litellm_provider", "mode"])) :=
  (preview_vs_csv_order ["input_cost_per_token", "output_cost_per_token",
    "litellm_provider", "mode"] (by decide) (by decide)).1

end UpdateLeaderboard
